import Mathlib

/-!
Verification development for the Ultronix Hivemind task-scheduling subsystem
(`internal/hivemind/service/scheduler`): the priority queue, the node
selectors and constraint checker, the execution monitor, the statistics
collector and the scheduler facade.

Conventions of the embedding:
* Go `float64` values are modelled as `ℚ`; every concrete input used in the
  theorems keeps all arithmetic exact, so the rational model agrees with the
  IEEE computation there.
* `math.Exp` (used only by `scoreLoad`) is an external library function; it is
  threaded through as an abstract parameter `expFn`.
* `sort.Slice` is an external library routine whose documented contract is
  "sorts, not guaranteed stable"; it is threaded through as an abstract
  parameter constrained by `SortScoresOk` (permutation + sorted output).
* `time.Time`/`time.Duration` are modelled as `Int` (nanoseconds); each
  operation that reads the clock takes `now : Int` as an argument.
* Go maps are modelled as association lists keyed by strings; Go slices as
  `List`; the backing slice of `container/heap` as an index function
  `Nat → heapItem` together with an explicit size.
-/

namespace Ultronix

/-- Modelled from the spec: `protocol.TaskStatus` — the `protocol` package is
not part of the provided sources; spec §3 lists the statuses Pending,
Assigned, Running, Completed, Failed, Cancelled, TimedOut. -/
inductive TaskStatus where
  | pending
  | assigned
  | running
  | completed
  | failed
  | cancelled
  | timedOut
  deriving DecidableEq, Repr

/-- Modelled from the spec: `protocol.Task` — spec §3: `ID`, `Priority`
(integer, higher = more urgent), `Timeout` (duration; 0 = default),
`AssignedNodeID`, `Status`, `StartedAt`, `CompletedAt`; the opaque payload is
irrelevant to every operation modelled here and is omitted. -/
structure Task where
  id : String
  priority : Int
  timeout : Int
  assignedNodeID : String
  status : TaskStatus
  startedAt : Option Int
  completedAt : Option Int
  deriving DecidableEq, Repr

/-- Modelled from the spec: `protocol.Capability` — the scheduler reads only
its `Name` field (`selector.go`: `capSet[c.Name]`). -/
structure Capability where
  name : String
  deriving DecidableEq, Repr

/-- Modelled from the spec: `protocol.SystemInfo` — `CPUCores`, `MemoryMB`,
`DiskFreeMB` as read by `constraintChecker.check` and `scoreResources`. -/
structure SystemInfo where
  cpuCores : Int
  memoryMB : Int
  diskFreeMB : Int
  deriving DecidableEq, Repr

/-- Modelled from the spec: `protocol.NodeInfo` — ID, declared capabilities,
system info and a status string (`"online"` or other). -/
structure NodeInfo where
  id : String
  capabilities : List Capability
  systemInfo : SystemInfo
  status : String
  deriving DecidableEq, Repr

/-- Modelled from the spec: `protocol.NodeLoadInfo` — CPUPercent,
MemoryPercent, ActiveTasks, QueuedTasks. Percentages are `float64` in Go,
modelled as `ℚ`. -/
structure NodeLoadInfo where
  cpuPercent : ℚ
  memoryPercent : ℚ
  activeTasks : Int
  queuedTasks : Int
  deriving DecidableEq, Repr

/-- `SkillInfo` from `task.go`: a skill installed on a Golem node. -/
structure SkillInfo where
  id : String
  name : String
  version : String
  capabilities : List String
  deriving DecidableEq, Repr

/-- `GolemProfile` from `task.go`: denormalised snapshot of one Golem node. -/
structure GolemProfile where
  nodeInfo : NodeInfo
  load : NodeLoadInfo
  installedSkills : List SkillInfo
  supportedFeatures : List String
  tags : List (String × String)
  healthScore : ℚ
  lastUpdated : Int
  deriving DecidableEq, Repr

/-- `ScheduleMode` from `task.go`: `"direct"` or `"ai"`. The Go type is a
string; an arbitrary (unknown) mode is representable via `other`. -/
inductive ScheduleMode where
  | direct
  | ai
  | other (s : String)
  deriving DecidableEq, Repr

/-- `ResourceRequirements` from `task.go`; zero means "no constraint". -/
structure ResourceRequirements where
  minCPUCores : Int
  minMemoryMB : Int
  minDiskFreeMB : Int
  maxCPUPercent : ℚ
  maxMemoryPercent : ℚ
  maxActiveTasks : Int
  deriving DecidableEq, Repr

/-- `ScheduleHints` from `task.go`. -/
structure ScheduleHints where
  description : String
  preferLowLatency : Bool
  preferHighResources : Bool
  affinity : String
  antiAffinity : List String
  customContext : List (String × String)
  deriving DecidableEq, Repr

/-- `ScheduleRequest` from `task.go`. `Task` is a pointer in Go, hence
`Option Task` here (a `none` models Go's nil pointer). -/
structure ScheduleRequest where
  task : Option Task
  mode : ScheduleMode
  targetNodeID : String
  requiredCapabilities : List String
  requiredSkills : List String
  requiredFeatures : List String
  preferredTags : List (String × String)
  resourceRequirements : Option ResourceRequirements
  hints : Option ScheduleHints
  requestedAt : Int
  deriving DecidableEq, Repr

/-- `NodeScore` from `task.go`: per-candidate scoring breakdown. -/
structure NodeScore where
  nodeID : String
  totalScore : ℚ
  capabilityScore : ℚ
  skillScore : ℚ
  resourceScore : ℚ
  loadScore : ℚ
  tagScore : ℚ
  affinityScore : ℚ
  eligible : Bool
  rejectReason : String
  deriving DecidableEq, Repr, Inhabited

/-- `ScheduleDecision` from `task.go`. -/
structure ScheduleDecision where
  requestID : String
  mode : ScheduleMode
  selectedNodeID : String
  reason : String
  scores : List NodeScore
  candidateCount : Nat
  eligibleCount : Nat
  decidedAt : Int
  latency : Int
  deriving DecidableEq, Repr

/-- Go's `%d` rendering of an integer, used inside rejection-reason strings. -/
def fmtInt (n : Int) : String := toString n

/-- Go's `%q` rendering of a string (double quotes around the value; escape
sequences never arise for the identifiers used here). -/
def fmtQ (s : String) : String := "\"" ++ s ++ "\""

/-- Rendering of a `float64` via `%.1f`; the exact decimal text is irrelevant
to every claim, so the rational is rendered with `toString`. -/
def fmtFloat (q : ℚ) : String := toString q

/-- Membership of a string in the capability-name set that
`constraintChecker.check` and `scoreCapabilities` build
(`capSet[c.Name] = struct{}{}`). -/
def capNames (p : GolemProfile) : List String :=
  p.nodeInfo.capabilities.map Capability.name

/-- The skill identifier set built by `check` and `scoreSkills`: each
installed skill contributes both its ID and its Name. -/
def skillNames (p : GolemProfile) : List String :=
  p.installedSkills.foldr (fun sk acc => sk.id :: sk.name :: acc) []

/-- `constraintChecker.check` from `selector.go` (lines 445–517): returns the
empty string when the profile passes all hard constraints, else the first
failing human-readable reason, checking in order: online status, required
capabilities, required skills, required features, resource requirements. -/
def constraintCheck (req : ScheduleRequest) (p : GolemProfile) : String :=
  if p.nodeInfo.status ≠ "online" then
    "node status is " ++ fmtQ p.nodeInfo.status ++ ", expected online"
  else match req.requiredCapabilities.find? (fun rc => ! (capNames p).contains rc) with
  | some rc => "missing required capability " ++ fmtQ rc
  | none =>
  match req.requiredSkills.find? (fun rs => ! (skillNames p).contains rs) with
  | some rs => "missing required skill " ++ fmtQ rs
  | none =>
  match req.requiredFeatures.find? (fun rf => ! p.supportedFeatures.contains rf) with
  | some rf => "missing required feature " ++ fmtQ rf
  | none =>
  match req.resourceRequirements with
  | none => ""
  | some rr =>
    let info := p.nodeInfo.systemInfo
    let load := p.load
    if rr.minCPUCores > 0 ∧ info.cpuCores < rr.minCPUCores then
      "insufficient CPU cores: have " ++ fmtInt info.cpuCores ++ ", need " ++ fmtInt rr.minCPUCores
    else if rr.minMemoryMB > 0 ∧ info.memoryMB < rr.minMemoryMB then
      "insufficient memory: have " ++ fmtInt info.memoryMB ++ "MB, need " ++ fmtInt rr.minMemoryMB ++ "MB"
    else if rr.minDiskFreeMB > 0 ∧ info.diskFreeMB < rr.minDiskFreeMB then
      "insufficient disk: have " ++ fmtInt info.diskFreeMB ++ "MB, need " ++ fmtInt rr.minDiskFreeMB ++ "MB"
    else if rr.maxCPUPercent > 0 ∧ load.cpuPercent > rr.maxCPUPercent then
      "CPU usage too high: " ++ fmtFloat load.cpuPercent ++ "% > " ++ fmtFloat rr.maxCPUPercent ++ "%"
    else if rr.maxMemoryPercent > 0 ∧ load.memoryPercent > rr.maxMemoryPercent then
      "memory usage too high: " ++ fmtFloat load.memoryPercent ++ "% > " ++ fmtFloat rr.maxMemoryPercent ++ "%"
    else if rr.maxActiveTasks > 0 ∧ load.activeTasks > rr.maxActiveTasks then
      "too many active tasks: " ++ fmtInt load.activeTasks ++ " > " ++ fmtInt rr.maxActiveTasks
    else ""

/-- `ScoringWeights` from `selector.go`. -/
structure ScoringWeights where
  capability : ℚ
  skill : ℚ
  resource : ℚ
  load : ℚ
  tag : ℚ
  affinity : ℚ
  deriving DecidableEq, Repr

/-- `DefaultScoringWeights` from `selector.go`. -/
def defaultScoringWeights : ScoringWeights :=
  { capability := 25/100, skill := 20/100, resource := 20/100
    load := 20/100, tag := 10/100, affinity := 5/100 }

/-- External library functions consumed by the selector: `math.Exp` (an
opaque transcendental, never evaluated on the inputs of any theorem below)
and `sort.Slice` applied to `[]NodeScore` with the descending-`TotalScore`
comparison (Go documents it as an unstable sort, so only its contract
`SortScoresOk` is assumed). -/
structure SelectorExt where
  expFn : ℚ → ℚ
  sortScores : List NodeScore → List NodeScore

/-- `clamp` helper from `selector.go`. -/
def clamp (v lo hi : ℚ) : ℚ :=
  if v < lo then lo else if v > hi then hi else v

/-- `AISelector.scoreCapabilities`: 1.0 when nothing is required, else the
matched fraction of `RequiredCapabilities` against the capability-name set. -/
def scoreCapabilities (req : ScheduleRequest) (p : GolemProfile) : ℚ :=
  if req.requiredCapabilities.length = 0 then 1
  else
    let matched := (req.requiredCapabilities.filter (fun rc => (capNames p).contains rc)).length
    (matched : ℚ) / (req.requiredCapabilities.length : ℚ)

/-- `AISelector.scoreSkills`: matched fraction of `RequiredSkills` against the
union of installed skills' IDs and names. -/
def scoreSkills (req : ScheduleRequest) (p : GolemProfile) : ℚ :=
  if req.requiredSkills.length = 0 then 1
  else
    let matched := (req.requiredSkills.filter (fun rs => (skillNames p).contains rs)).length
    (matched : ℚ) / (req.requiredSkills.length : ℚ)

/-- `AISelector.scoreResources`: mean of the CPU-headroom, memory-headroom and
free-disk subscores. -/
def scoreResources (p : GolemProfile) : ℚ :=
  let info := p.nodeInfo.systemInfo
  let load := p.load
  let cpuScore := 1 - clamp (load.cpuPercent / 100) 0 1
  let memScore := 1 - clamp (load.memoryPercent / 100) 0 1
  let diskScore := clamp ((info.diskFreeMB : ℚ) / 10240) 0 1
  (cpuScore + memScore + diskScore) / 3

/-- `AISelector.scoreLoad`: 1.0 for an idle node, else `exp(-0.3·total)`
(`math.Exp` abstracted as `expFn`). -/
def scoreLoad (expFn : ℚ → ℚ) (p : GolemProfile) : ℚ :=
  let total := p.load.activeTasks + p.load.queuedTasks
  if total = 0 then 1
  else expFn (-(3/10) * (total : ℚ))

/-- Lookup in a Go `map[string]string` modelled as an association list;
a missing key yields Go's zero value `""`. -/
def tagLookup (tags : List (String × String)) (k : String) : String :=
  match tags.find? (fun kv => kv.1 == k) with
  | some kv => kv.2
  | none => ""

/-- `AISelector.scoreTags`: matched fraction of `PreferredTags` (a match is
exact key-and-value equality). -/
def scoreTags (req : ScheduleRequest) (p : GolemProfile) : ℚ :=
  if req.preferredTags.length = 0 then 1
  else
    let matched := (req.preferredTags.filter (fun kv => tagLookup p.tags kv.1 == kv.2)).length
    (matched : ℚ) / (req.preferredTags.length : ℚ)

/-- `AISelector.scoreAffinity`: 0.5 with no hints; 0.0 when the node ID
appears in `AntiAffinity` (checked first); 1.0 when it equals a non-empty
`Affinity` hint; neutral 0.5 otherwise. -/
def scoreAffinity (req : ScheduleRequest) (p : GolemProfile) : ℚ :=
  match req.hints with
  | none => 1/2
  | some hints =>
    let nodeID := p.nodeInfo.id
    if hints.antiAffinity.contains nodeID then 0
    else if hints.affinity ≠ "" ∧ hints.affinity = nodeID then 1
    else 1/2

/-- `AISelector.score`: the six dimensional subscores plus their weighted
aggregate for one candidate. -/
def scoreProfile (w : ScoringWeights) (expFn : ℚ → ℚ)
    (req : ScheduleRequest) (p : GolemProfile) : NodeScore :=
  let capS := scoreCapabilities req p
  let skillS := scoreSkills req p
  let resS := scoreResources p
  let loadS := scoreLoad expFn p
  let tagS := scoreTags req p
  let affS := scoreAffinity req p
  { nodeID := p.nodeInfo.id
    capabilityScore := capS
    skillScore := skillS
    resourceScore := resS
    loadScore := loadS
    tagScore := tagS
    affinityScore := affS
    totalScore := capS * w.capability + skillS * w.skill + resS * w.resource +
      loadS * w.load + tagS * w.tag + affS * w.affinity
    eligible := false
    rejectReason := "" }

/-- `AISelector.buildReason` (the `%.3f`/`%.2f` decimal rendering of Go's
`fmt.Fprintf` is abstracted by `fmtFloat`). -/
def buildReason (best : NodeScore) (eligibleCount : Nat) : String :=
  "selected node " ++ fmtQ best.nodeID ++ " (score=" ++ fmtFloat best.totalScore ++
    ") from " ++ toString eligibleCount ++ " eligible candidates; breakdown: capability=" ++
    fmtFloat best.capabilityScore ++ ", skill=" ++ fmtFloat best.skillScore ++
    ", resource=" ++ fmtFloat best.resourceScore ++ ", load=" ++ fmtFloat best.loadScore ++
    ", tag=" ++ fmtFloat best.tagScore ++ ", affinity=" ++ fmtFloat best.affinityScore

/-- Per-candidate body of `AISelector.Select`'s first loop: compute the
subscores, then mark eligibility via the constraint checker. -/
def scoreAndCheck (w : ScoringWeights) (expFn : ℚ → ℚ)
    (req : ScheduleRequest) (p : GolemProfile) : NodeScore :=
  let ns := scoreProfile w expFn req p
  let reason := constraintCheck req p
  if reason ≠ "" then { ns with eligible := false, rejectReason := reason }
  else { ns with eligible := true }

/-- `AISelector.Select` from `selector.go` (lines 137–187). `ext.sortScores`
stands for `sort.Slice(eligible, TotalScore-descending)`; wall-clock fields
(`DecidedAt`, `Latency`) are outside the model and set to `now`/`0`. -/
def aiSelect (w : ScoringWeights) (ext : SelectorExt) (now : Int)
    (req : ScheduleRequest) (candidates : List GolemProfile) :
    Except String ScheduleDecision :=
  if candidates.length = 0 then
    .error "scheduler: AISelector received 0 candidates"
  else
    let scores := candidates.map (scoreAndCheck w ext.expFn req)
    let eligible := scores.filter (fun ns => ns.eligible)
    if eligible.length = 0 then
      .error ("scheduler: no eligible Golem nodes among " ++
        toString candidates.length ++ " candidates")
    else
      let best := (ext.sortScores eligible).headD default
      .ok { requestID := ""
            mode := .ai
            selectedNodeID := best.nodeID
            reason := buildReason best eligible.length
            scores := scores
            candidateCount := candidates.length
            eligibleCount := eligible.length
            decidedAt := now
            latency := 0 }

/-- `DirectSelector.Select` from `selector.go` (lines 51–86). -/
def directSelect (now : Int) (req : ScheduleRequest)
    (candidates : List GolemProfile) : Except String ScheduleDecision :=
  if req.targetNodeID = "" then
    .error "scheduler: DirectSelector requires a non-empty TargetNodeID"
  else
    match candidates.find? (fun c => c.nodeInfo.id == req.targetNodeID) with
    | none =>
      .error ("scheduler: target node " ++ fmtQ req.targetNodeID ++
        " not found among " ++ toString candidates.length ++ " candidates")
    | some target =>
      let reason := constraintCheck req target
      if reason ≠ "" then
        .error ("scheduler: target node " ++ fmtQ req.targetNodeID ++
          " rejected: " ++ reason)
      else
        .ok { requestID := ""
              mode := .direct
              selectedNodeID := target.nodeInfo.id
              reason := "directly targeted node " ++ fmtQ req.targetNodeID ++
                " passed all constraints"
              scores := []
              candidateCount := candidates.length
              eligibleCount := 1
              decidedAt := now
              latency := 0 }

/-- `heapItem` from `queue.go`: the queued request with the priority captured
at enqueue time and the monotone FIFO tiebreaker. The `index` field of the Go
struct is written by `Swap`/`Push`/`Pop` but never read by any queue
operation (`Less` uses only `priority` and `seq`), so it is omitted. -/
structure HeapItem where
  request : ScheduleRequest
  priority : Int
  seq : Int
  deriving DecidableEq, Repr

/-- `requestHeap.Less` from `queue.go` (lines 144–149): item `i` is dequeued
before item `j` when its priority is strictly higher, or on equal priority
when it was inserted earlier. -/
def lessItem (x y : HeapItem) : Prop :=
  if x.priority = y.priority then x.seq < y.seq else x.priority > y.priority

instance (x y : HeapItem) : Decidable (lessItem x y) := by
  unfold lessItem; infer_instance

/-- Pointwise update of the backing array (`h.Push` writes the new element at
the end of the slice). -/
def setArr (a : ℕ → HeapItem) (i : ℕ) (x : HeapItem) : ℕ → HeapItem :=
  fun k => if k = i then x else a k

/-- `requestHeap.Swap` on the backing array. -/
def swapArr (a : ℕ → HeapItem) (i j : ℕ) : ℕ → HeapItem :=
  fun k => if k = i then a j else if k = j then a i else a k

/-- One loop iteration budget for `container/heap.up`; the index strictly
decreases at every iteration, so `j + 1` units of fuel always complete the
loop (`upGoFuel_congr` below shows the result is fuel-independent beyond
that bound, so the fuel is a termination device, not part of the
semantics). -/
def upGoFuel (fuel : ℕ) (a : ℕ → HeapItem) (j : ℕ) : ℕ → HeapItem :=
  match fuel with
  | 0 => a
  | fuel + 1 =>
    if (j - 1) / 2 = j then a
    else if lessItem (a j) (a ((j - 1) / 2)) then
      upGoFuel fuel (swapArr a ((j - 1) / 2) j) ((j - 1) / 2)
    else a

/-- `container/heap.up`: sift the element at index `j` towards the root while
it is `Less` than its parent `(j-1)/2`. (Go computes `(j-1)/2` in `int`
arithmetic, which equals the `Nat` computation for every reachable `j`, and
stops when `i == j`, i.e. exactly at `j = 0`.) -/
def upGo (a : ℕ → HeapItem) (j : ℕ) : ℕ → HeapItem := upGoFuel (j + 1) a j

/-- Loop of `container/heap.down` with an iteration budget; the index
strictly increases and stays below `n`, so `n` units of fuel always complete
the loop (`downAuxFuel_congr` below shows fuel-independence beyond
`n - i`). -/
def downAuxFuel (fuel : ℕ) (a : ℕ → HeapItem) (i n : ℕ) : (ℕ → HeapItem) × ℕ :=
  match fuel with
  | 0 => (a, i)
  | fuel + 1 =>
    if n ≤ 2 * i + 1 then (a, i)
    else
      let j1 := 2 * i + 1
      let j := if j1 + 1 < n ∧ lessItem (a (j1 + 1)) (a j1) then j1 + 1 else j1
      if lessItem (a j) (a i) then downAuxFuel fuel (swapArr a i j) j n
      else (a, i)

/-- `container/heap.down`: sift the element at index `i` down inside the
first `n` positions; returns the final index as well (Go's `down` reports
whether the element moved via `i > i0`). -/
def downAux (a : ℕ → HeapItem) (i n : ℕ) : (ℕ → HeapItem) × ℕ :=
  downAuxFuel n a i n

/-- `container/heap.Push`: append the new element, then sift up. -/
def pushGo (a : ℕ → HeapItem) (n : ℕ) (x : HeapItem) : ℕ → HeapItem :=
  upGo (setArr a n x) n

/-- `container/heap.Pop` on a heap of size `n ≥ 1`: swap the root with the
last element, sift the new root down within `n-1`, then remove and return
the last slot (the old root). -/
def popGo (a : ℕ → HeapItem) (n : ℕ) : HeapItem × (ℕ → HeapItem) :=
  let a1 := swapArr a 0 (n - 1)
  let a2 := (downAux a1 0 (n - 1)).1
  (a2 (n - 1), a2)

/-- `container/heap.Remove` at index `i` of a heap of size `n`: swap with the
last element, restore heapness with `down` (falling back to `up` when the
element did not move down), then pop the last slot. -/
def removeGo (a : ℕ → HeapItem) (n i : ℕ) : ℕ → HeapItem :=
  let m := n - 1
  if m = i then a
  else
    let a1 := swapArr a i m
    let r := downAux a1 i m
    if r.2 > i then r.1 else upGo r.1 i

/-- The priority read at enqueue time: `taskPriorityToInt(req.Task.Priority)`
(`queue.go` line 63). Go dereferences the task pointer and would panic on
nil; every queue theorem below only enqueues requests with a task present,
and the `none` branch is an arbitrary placeholder. -/
def reqPriority (req : ScheduleRequest) : Int :=
  match req.task with
  | some t => t.priority
  | none => 0

/-- The task ID read by `PriorityQueue.Remove` (`item.request.Task.ID`); the
same nil-pointer caveat as `reqPriority` applies. -/
def reqTaskID (req : ScheduleRequest) : String :=
  match req.task with
  | some t => t.id
  | none => ""

/-- `PriorityQueue` from `queue.go`: the heap's backing slice (as an index
function plus explicit length) and the monotone insertion counter. -/
structure PQ where
  arr : ℕ → HeapItem
  size : ℕ
  seq : Int

/-- `NewPriorityQueue`: the empty queue (the backing array holds arbitrary
junk beyond `size`; a fixed placeholder item is used). -/
def emptyPQ : PQ :=
  { arr := fun _ =>
      { request :=
          { task := none, mode := .ai, targetNodeID := ""
            requiredCapabilities := [], requiredSkills := [], requiredFeatures := []
            preferredTags := [], resourceRequirements := none, hints := none
            requestedAt := 0 }
        priority := 0, seq := 0 }
    size := 0
    seq := 0 }

/-- `PriorityQueue.Enqueue`: bump the sequence counter, build the item and
`heap.Push` it (the Go method always returns a nil error). -/
def pqEnqueue (q : PQ) (req : ScheduleRequest) : PQ :=
  let seq' := q.seq + 1
  let item : HeapItem := { request := req, priority := reqPriority req, seq := seq' }
  { arr := pushGo q.arr q.size item, size := q.size + 1, seq := seq' }

/-- `PriorityQueue.Dequeue`: pop the root, or `none` when empty. -/
def pqDequeue (q : PQ) : Option ScheduleRequest × PQ :=
  if q.size = 0 then (none, q)
  else
    let r := popGo q.arr q.size
    (some r.1.request, { q with arr := r.2, size := q.size - 1 })

/-- `PriorityQueue.Peek`. -/
def pqPeek (q : PQ) : Option ScheduleRequest :=
  if q.size = 0 then none else some (q.arr 0).request

/-- `PriorityQueue.Len`. -/
def pqLen (q : PQ) : ℕ := q.size

/-- Index scanned by `PriorityQueue.Remove`: the first slice position whose
request carries the given task ID. -/
def pqFindIdx (q : PQ) (taskID : String) : Option ℕ :=
  (List.range q.size).find? (fun i => reqTaskID ((q.arr i).request) == taskID)

/-- `PriorityQueue.Remove`: linear scan for the task ID, `heap.Remove` at the
found index; reports whether anything was removed. -/
def pqRemove (q : PQ) (taskID : String) : Bool × PQ :=
  match pqFindIdx q taskID with
  | none => (false, q)
  | some i => (true, { q with arr := removeGo q.arr q.size i, size := q.size - 1 })

/-- The items popped by repeatedly applying `heap.Pop` until empty (the loop
bodies of `PriorityQueue.Drain` and of repeated `Dequeue`). -/
def drainItems (a : ℕ → HeapItem) : (n : ℕ) → List HeapItem
  | 0 => []
  | n + 1 =>
    let r := popGo a (n + 1)
    r.1 :: drainItems r.2 n

/-- `PriorityQueue.Drain`: all queued requests in dequeue order. -/
def pqDrain (q : PQ) : List ScheduleRequest :=
  (drainItems q.arr q.size).map (fun it => it.request)

/-- Enqueue a whole list of requests in order, with no intervening dequeue. -/
def enqueueAll (q : PQ) (rs : List ScheduleRequest) : PQ :=
  rs.foldl pqEnqueue q

/-- The multiset of the first `n` slots of the backing array. -/
def msOf (a : ℕ → HeapItem) (n : ℕ) : Multiset HeapItem :=
  ((List.range n).map a : List HeapItem)

/-- The binary min-heap property on the first `n` slots: no element is `Less`
than its parent (this is what `container/heap` maintains and what
`requestHeap.Less` instantiates with priority-then-sequence order). -/
def HeapInv (a : ℕ → HeapItem) (n : ℕ) : Prop :=
  ∀ c, 0 < c → c < n → ¬ lessItem (a c) (a ((c - 1) / 2))

/-- Loop invariant of `container/heap.up`: the heap property may be broken
only at the edge from the sifted index `j` to its parent; additionally the
children of `j` already dominate the element at `j`'s parent (vacuous at
the start of a `Push`, where `j` is a fresh leaf). -/
def UpAlmost (a : ℕ → HeapItem) (n j : ℕ) : Prop :=
  (∀ c, 0 < c → c < n → c ≠ j → ¬ lessItem (a c) (a ((c - 1) / 2))) ∧
  (0 < j → ∀ c, c < n → (c - 1) / 2 = j → ¬ lessItem (a c) (a ((j - 1) / 2)))

/-- Loop invariant of `container/heap.down`: the heap property may be broken
only at the edges from the children of the sifted index `i`; additionally
those children already dominate the element at `i`'s parent. -/
def DownAlmost (a : ℕ → HeapItem) (m i : ℕ) : Prop :=
  (∀ c, 0 < c → c < m → (c - 1) / 2 ≠ i → ¬ lessItem (a c) (a ((c - 1) / 2))) ∧
  (0 < i → ∀ c, c < m → (c - 1) / 2 = i → ¬ lessItem (a c) (a ((i - 1) / 2)))

/-- The heap items created by enqueuing `rs` in order into a queue whose
sequence counter stands at `base` (`Enqueue` stamps `seq = base + 1, base + 2, …`
and reads the priority from the task). -/
def mkItems : Int → List ScheduleRequest → List HeapItem
  | _, [] => []
  | base, r :: rs =>
    { request := r, priority := reqPriority r, seq := base + 1 } :: mkItems (base + 1) rs

/-- Lookup in a Go map modelled as an association list (keys are unique in
every reachable state, since insertion replaces). -/
def alookup {β : Type} (l : List (String × β)) (k : String) : Option β :=
  (l.find? (fun kv => kv.1 == k)).map (fun kv => kv.2)

/-- Go map assignment `m[k] = v`: replace the binding when the key is
present, otherwise append it. -/
def aupsert {β : Type} (l : List (String × β)) (k : String) (v : β) :
    List (String × β) :=
  if (l.find? (fun kv => kv.1 == k)).isSome then
    l.map (fun kv => if kv.1 == k then (k, v) else kv)
  else l ++ [(k, v)]

/-- Go map `delete(m, k)`. -/
def aerase {β : Type} (l : List (String × β)) (k : String) :
    List (String × β) :=
  l.filter (fun kv => kv.1 != k)

/-- Modelled from the spec: `protocol.TaskResult` — the result callback
carries the task ID, a success flag and an error message (spec §4.6
`ReportResult`). -/
structure TaskResult where
  taskID : String
  success : Bool
  error : String
  deriving DecidableEq, Repr

/-- Modelled from the spec: `protocol.TaskProgress` — the heartbeat-bearing
progress report, keyed by task ID (spec §4.6 `ReportProgress`). -/
structure TaskProgress where
  taskID : String
  deriving DecidableEq, Repr

/-- `MonitorConfig` from `monitor.go`. -/
structure MonitorConfig where
  pollInterval : Int
  stallThreshold : Int
  defaultTimeout : Int
  deriving DecidableEq, Repr

/-- `DefaultMonitorConfig`: 10 s poll, 60 s stall threshold, 5 min default
timeout (nanoseconds). -/
def defaultMonitorConfig : MonitorConfig :=
  { pollInterval := 10000000000
    stallThreshold := 60000000000
    defaultTimeout := 300000000000 }

/-- `watchedTask` from `monitor.go`. The Go struct holds a task pointer;
here the task value is snapshotted (no monitor code path reads it back, so
the aliasing is unobservable). -/
structure WatchedTask where
  task : Task
  startedAt : Int
  lastHeartbeat : Int
  timeout : Int
  deriving DecidableEq, Repr

/-- `NodeSchedulerStats` from `monitor.go` (the duration aggregate
`AverageExecutionTime` is computed only in snapshots and not modelled). -/
structure NodeSchedStats where
  nodeID : String
  tasksAssigned : Int
  tasksCompleted : Int
  tasksFailed : Int
  lastAssignedAt : Int
  deriving DecidableEq, Repr

/-- The mutable state of `StatsCollector` from `monitor.go`: lifecycle
counters, the running-task map, the capped latency/execution sample windows
and the per-node statistics. -/
structure StatsState where
  totalSubmitted : Int
  totalCompleted : Int
  totalFailed : Int
  totalCancelled : Int
  totalTimedOut : Int
  running : List (String × Int)
  latencySamples : List Int
  executionSamples : List Int
  maxSampleCount : ℕ
  nodeStats : List (String × NodeSchedStats)
  deriving DecidableEq, Repr

/-- `NewStatsCollector`. -/
def emptyStats : StatsState :=
  { totalSubmitted := 0, totalCompleted := 0, totalFailed := 0
    totalCancelled := 0, totalTimedOut := 0
    running := [], latencySamples := [], executionSamples := []
    maxSampleCount := 1000, nodeStats := [] }

/-- Sample-window append with the 1000-entry cap (oldest evicted). -/
def pushSample (samples : List Int) (cap : ℕ) (v : Int) : List Int :=
  let s := samples ++ [v]
  if cap < s.length then s.drop 1 else s

/-- `StatsCollector.getOrCreateNodeStats`. -/
def getOrCreateNode (ns : List (String × NodeSchedStats)) (nodeID : String) :
    NodeSchedStats :=
  match alookup ns nodeID with
  | some v => v
  | none => { nodeID := nodeID, tasksAssigned := 0, tasksCompleted := 0
              tasksFailed := 0, lastAssignedAt := 0 }

/-- `StatsCollector.RecordSubmission`. -/
def recordSubmission (st : StatsState) : StatsState :=
  { st with totalSubmitted := st.totalSubmitted + 1 }

/-- `StatsCollector.RecordAssignment`. -/
def recordAssignment (st : StatsState) (taskID nodeID : String)
    (latency now : Int) : StatsState :=
  let ns := getOrCreateNode st.nodeStats nodeID
  let ns' := { ns with tasksAssigned := ns.tasksAssigned + 1, lastAssignedAt := now }
  { st with
      running := aupsert st.running taskID now
      latencySamples := pushSample st.latencySamples st.maxSampleCount latency
      nodeStats := aupsert st.nodeStats nodeID ns' }

/-- `StatsCollector.RecordCompletion`. -/
def recordCompletion (st : StatsState) (taskID nodeID : String) (now : Int) :
    StatsState :=
  let st := { st with totalCompleted := st.totalCompleted + 1 }
  match alookup st.running taskID with
  | none => st
  | some assignedAt =>
    let st := { st with
        executionSamples := pushSample st.executionSamples st.maxSampleCount (now - assignedAt)
        running := aerase st.running taskID }
    if nodeID ≠ "" then
      let ns := getOrCreateNode st.nodeStats nodeID
      let ns' := { ns with tasksCompleted := ns.tasksCompleted + 1 }
      { st with nodeStats := aupsert st.nodeStats nodeID ns' }
    else st

/-- `StatsCollector.RecordFailure`. -/
def recordFailure (st : StatsState) (taskID nodeID : String) : StatsState :=
  let st := { st with totalFailed := st.totalFailed + 1
                      running := aerase st.running taskID }
  if nodeID ≠ "" then
    let ns := getOrCreateNode st.nodeStats nodeID
    let ns' := { ns with tasksFailed := ns.tasksFailed + 1 }
    { st with nodeStats := aupsert st.nodeStats nodeID ns' }
  else st

/-- `StatsCollector.RecordCancellation`. -/
def recordCancellation (st : StatsState) (taskID : String) : StatsState :=
  { st with totalCancelled := st.totalCancelled + 1
            running := aerase st.running taskID }

/-- `StatsCollector.RecordTimeout`. -/
def recordTimeout (st : StatsState) (taskID : String) : StatsState :=
  { st with totalTimedOut := st.totalTimedOut + 1
            running := aerase st.running taskID }

/-- `TaskEventType` from `task.go`. -/
inductive EventType where
  | submitted
  | assigned
  | progress
  | completed
  | failed
  | cancelled
  | timedOut
  | rescheduled
  deriving DecidableEq, Repr

/-- `TaskEvent` from `task.go` (the `Error` field holds the formatted error
message string). -/
structure TaskEvent where
  type : EventType
  task : Option Task
  decision : Option ScheduleDecision
  nodeID : String
  progress : Option TaskProgress
  result : Option TaskResult
  error : Option String
  timestamp : Int
  deriving DecidableEq, Repr

/-- A `TaskEvent` with every optional field empty, to be filled per call
site (mirrors Go's zero-valued struct literal fields). -/
def mkEvent (ty : EventType) (task : Option Task) (now : Int) : TaskEvent :=
  { type := ty, task := task, decision := none, nodeID := ""
    progress := none, result := none, error := none, timestamp := now }

/-- `SchedulerConfig` from the scheduler facade source. -/
structure SchedulerConfig where
  dispatchConcurrency : Int
  scheduleLoopInterval : Int
  maxRetries : Int
  defaultScoringWeights : ScoringWeights
  monitorConfig : MonitorConfig
  deriving DecidableEq, Repr

/-- `DefaultSchedulerConfig` (durations in nanoseconds). -/
def defaultSchedulerConfig : SchedulerConfig :=
  { dispatchConcurrency := 8
    scheduleLoopInterval := 500000000
    maxRetries := 3
    defaultScoringWeights := defaultScoringWeights
    monitorConfig := defaultMonitorConfig }

/-- `taskRecord` from the scheduler facade. In Go `rec.task` and
`rec.request.Task` are the same pointer (tryDispatch stores
`task: req.Task, request: req`), so the record keeps a single copy inside
`request`; `recTask` reads it back. -/
structure TaskRecord where
  request : ScheduleRequest
  decision : Option ScheduleDecision
  retries : Int
  deriving DecidableEq, Repr

/-- The record's task (`rec.task`); present for every record created by
`tryDispatch`. -/
def recTask (rec : TaskRecord) : Option Task := rec.request.task

/-- A monitor-handler invocation, recorded when `checkTasks` fires
`OnTaskTimeout` / `OnTaskStalled` (observation log for the "is invoked"
part of the spec; the handler's state effect is applied alongside). -/
inductive HandlerCall where
  | timeout (taskID : String)
  | stalled (taskID : String)
  deriving DecidableEq, Repr

/-- The combined state of `defaultScheduler` plus its owned `taskMonitor`
and `StatsCollector`: the pending queue, the task-record table, the
monitor's watched map, the statistics, the log of events delivered to
listeners (listener invocation is synchronous, so the event log is the
observable), and the log of monitor-handler invocations. -/
structure SchedState where
  config : SchedulerConfig
  queue : PQ
  tasks : List (String × TaskRecord)
  watched : List (String × WatchedTask)
  stats : StatsState
  events : List TaskEvent
  calls : List HandlerCall

/-- The scheduler as built by `CompletedSchedulerConfig.New`: empty queue,
empty task table, fresh monitor and stats. -/
def initialState (cfg : SchedulerConfig) : SchedState :=
  { config := cfg, queue := emptyPQ, tasks := [], watched := []
    stats := emptyStats, events := [], calls := [] }

/-- `emitEvent`: the event is delivered synchronously to every listener;
observable as appending to the event log. -/
def emitEvent (s : SchedState) (e : TaskEvent) : SchedState :=
  { s with events := s.events ++ [e] }

/-- `defaultScheduler.getTask`. -/
def getTaskS (s : SchedState) (taskID : String) : Option Task :=
  match alookup s.tasks taskID with
  | some rec => recTask rec
  | none => none

/-- The status-mutation pattern `if rec, ok := s.tasks[taskID]; ok {
rec.task.Status = st }` shared by Cancel / OnTaskTimeout / ReportResult. -/
def setTaskStatus (s : SchedState) (taskID : String) (st : TaskStatus) :
    SchedState :=
  match alookup s.tasks taskID with
  | none => s
  | some rec =>
    match rec.request.task with
    | none => s
    | some t =>
      let rec' := { rec with request := { rec.request with task := some ({ t with status := st }) } }
      { s with tasks := aupsert s.tasks taskID rec' }

/-- `taskMonitor.Watch`: timeout falls back to `DefaultTimeout` when the
task's own timeout is zero; both clocks start at `now`. -/
def monitorWatch (s : SchedState) (now : Int) (task : Task) : SchedState :=
  let timeout := if task.timeout = 0 then s.config.monitorConfig.defaultTimeout else task.timeout
  let wt : WatchedTask :=
    { task := task, startedAt := now, lastHeartbeat := now, timeout := timeout }
  { s with watched := aupsert s.watched task.id wt }

/-- `taskMonitor.Unwatch`. -/
def monitorUnwatch (s : SchedState) (taskID : String) : SchedState :=
  { s with watched := aerase s.watched taskID }

/-- `taskMonitor.RecordHeartbeat`. -/
def recordHeartbeat (s : SchedState) (now : Int) (taskID : String) : SchedState :=
  match alookup s.watched taskID with
  | none => s
  | some wt => { s with watched := aupsert s.watched taskID ({ wt with lastHeartbeat := now }) }

/-- `defaultScheduler.Cancel`: remove from the queue if present, otherwise
unwatch; record the cancellation, set the status to Cancelled, emit
`Cancelled`; always returns a nil error. -/
def cancelOp (s : SchedState) (now : Int) (taskID : String) :
    SchedState × Option String :=
  let r := pqRemove s.queue taskID
  if r.1 then
    let s := { s with queue := r.2 }
    let s := { s with stats := recordCancellation s.stats taskID }
    let s := setTaskStatus s taskID .cancelled
    let s := emitEvent s (mkEvent .cancelled (getTaskS s taskID) now)
    (s, none)
  else
    let s := monitorUnwatch s taskID
    let s := { s with stats := recordCancellation s.stats taskID }
    let s := setTaskStatus s taskID .cancelled
    let s := emitEvent s (mkEvent .cancelled (getTaskS s taskID) now)
    (s, none)

/-- `defaultScheduler.OnTaskTimeout`: record the timeout, set status
TimedOut, emit `TimedOut` (the monitor removes the watch entry separately,
in `checkTasks`). -/
def onTaskTimeoutOp (s : SchedState) (now : Int) (taskID : String) : SchedState :=
  let s := { s with stats := recordTimeout s.stats taskID }
  let s := setTaskStatus s taskID .timedOut
  emitEvent s (mkEvent .timedOut (getTaskS s taskID) now)

/-- `defaultScheduler.OnTaskStalled`: with a known record and retries
remaining, increment the retry count, re-enqueue the recorded request and
emit `Rescheduled` (the watch entry is left in place); otherwise record a
failure and emit `Failed`. Unknown IDs are ignored. The Go guard
`rec.request != nil` always holds for records built by `tryDispatch`. -/
def onTaskStalledOp (s : SchedState) (now : Int) (taskID : String) : SchedState :=
  match alookup s.tasks taskID with
  | none => s
  | some rec =>
    if rec.retries < s.config.maxRetries then
      let s := { s with tasks := aupsert s.tasks taskID ({ rec with retries := rec.retries + 1 }) }
      let s := { s with queue := pqEnqueue s.queue rec.request }
      emitEvent s (mkEvent .rescheduled (recTask rec) now)
    else
      let s := { s with stats := recordFailure s.stats taskID "" }
      let e := mkEvent .failed (getTaskS s taskID) now
      emitEvent s { e with
        error := some ("task stalled after " ++ fmtInt s.config.maxRetries ++ " retries") }

/-- `defaultScheduler.ReportProgress`: heartbeat plus a `Progress` event. -/
def reportProgressOp (s : SchedState) (now : Int) (progress : TaskProgress) : SchedState :=
  let s := recordHeartbeat s now progress.taskID
  let e := mkEvent .progress (getTaskS s progress.taskID) now
  emitEvent s { e with progress := some progress }

/-- `defaultScheduler.ReportResult`: unwatch, stamp `CompletedAt`, set the
status from `result.Success`, record completion/failure against the node of
the recorded decision, emit `Completed`/`Failed`. -/
def reportResultOp (s : SchedState) (now : Int) (result : TaskResult) : SchedState :=
  let s := monitorUnwatch s result.taskID
  let recOpt := alookup s.tasks result.taskID
  let s :=
    match recOpt with
    | none => s
    | some rec =>
      match rec.request.task with
      | none => s
      | some t =>
        let t' := { t with completedAt := some now
                           status := if result.success then .completed else .failed }
        let rec' := { rec with request := { rec.request with task := some t' } }
        { s with tasks := aupsert s.tasks result.taskID rec' }
  let nodeID :=
    match recOpt with
    | some rec => match rec.decision with
      | some d => d.selectedNodeID
      | none => ""
    | none => ""
  if result.success then
    let s := { s with stats := recordCompletion s.stats result.taskID nodeID now }
    let e := mkEvent .completed (getTaskS s result.taskID) now
    emitEvent s { e with result := some result, nodeID := nodeID }
  else
    let s := { s with stats := recordFailure s.stats result.taskID nodeID }
    let e := mkEvent .failed (getTaskS s result.taskID) now
    emitEvent s { e with result := some result, nodeID := nodeID, error := some result.error }

/-- The selector dispatch of `tryDispatch` (`switch req.Mode`), applied to
the candidate snapshot. -/
def selectByMode (ext : SelectorExt) (w : ScoringWeights) (now : Int)
    (req : ScheduleRequest) (candidates : List GolemProfile) :
    Except String ScheduleDecision :=
  match req.mode with
  | .direct => directSelect now req candidates
  | .ai => aiSelect w ext now req candidates
  | .other m => .error ("unknown schedule mode " ++ fmtQ m)

/-- `defaultScheduler.tryDispatch`. The two external calls are oracles:
`profilesRes` is the outcome of `provider.ListProfiles` and `dispatchOk`
whether `dispatcher.Dispatch` returns nil. On success the task is mutated
(AssignedNodeID / Status=Assigned / StartedAt), the record is inserted (with
a fresh zero retry count), and—only when Dispatch succeeds—the assignment is
recorded, the task watched and `Assigned` emitted. Note the record stays
inserted even when Dispatch fails. -/
def tryDispatchOp (ext : SelectorExt) (s : SchedState) (now : Int)
    (req : ScheduleRequest) (profilesRes : Except String (List GolemProfile))
    (dispatchOk : Bool) : SchedState × Except String ScheduleDecision :=
  match profilesRes with
  | .error e => (s, .error ("failed to list Golem profiles: " ++ e))
  | .ok candidates =>
    if candidates.length = 0 then (s, .error "no Golem nodes available")
    else
      match selectByMode ext s.config.defaultScoringWeights now req candidates with
      | .error e => (s, .error e)
      | .ok decision0 =>
        match req.task with
        | none =>
          -- Go dereferences req.Task here and would panic on nil; Schedule
          -- rejects nil tasks first, so this branch is unreachable from the
          -- public surface and is modelled as an inert error.
          (s, .error "model: nil task dereference in tryDispatch")
        | some t =>
          let t' := { t with assignedNodeID := decision0.selectedNodeID
                             status := .assigned
                             startedAt := some now }
          let req' := { req with task := some t' }
          let decision := { decision0 with requestID := t.id }
          let newRec : TaskRecord := { request := req', decision := some decision, retries := 0 }
          let s := { s with tasks := aupsert s.tasks t.id newRec }
          if dispatchOk then
            let s := { s with stats := recordAssignment s.stats t.id decision.selectedNodeID decision.latency now }
            let s := monitorWatch s now t'
            let e := mkEvent .assigned (some t') now
            let s := emitEvent s { e with decision := some decision, nodeID := decision.selectedNodeID }
            (s, .ok decision)
          else
            (s, .error ("failed to dispatch task " ++ fmtQ t.id ++ " to node " ++
              fmtQ decision.selectedNodeID))

/-- `defaultScheduler.Schedule`: reject a nil task, record the submission,
attempt an immediate dispatch; on failure enqueue the request, emit
`Submitted` and return a composite error. -/
def scheduleOp (ext : SelectorExt) (s : SchedState) (now : Int)
    (req : ScheduleRequest) (profilesRes : Except String (List GolemProfile))
    (dispatchOk : Bool) : SchedState × Except String ScheduleDecision :=
  match req.task with
  | none => (s, .error "scheduler: task must not be nil")
  | some t =>
    let s := { s with stats := recordSubmission s.stats }
    let r := tryDispatchOp ext s now req profilesRes dispatchOk
    match r.2 with
    | .ok d => (r.1, .ok d)
    | .error e =>
      let s := { r.1 with queue := pqEnqueue r.1.queue req }
      let s := emitEvent s (mkEvent .submitted req.task now)
      (s, .error ("scheduler: immediate dispatch failed (" ++ e ++ "), task " ++
        fmtQ t.id ++ " queued for retry"))

/-- One snapshot entry of `taskMonitor.checkTasks`. -/
structure MonCheck where
  id : String
  timeout : Bool
  stalled : Bool
  deriving DecidableEq, Repr

/-- The snapshot loop of `checkTasks`: flag every watched entry whose age
exceeds its timeout or whose last heartbeat is older than the stall
threshold. -/
def buildChecks (watched : List (String × WatchedTask)) (stallThreshold now : Int) :
    List MonCheck :=
  watched.filterMap (fun kv =>
    let wt := kv.2
    let c : MonCheck :=
      { id := kv.1
        timeout := decide (now - wt.startedAt > wt.timeout)
        stalled := decide (now - wt.lastHeartbeat > stallThreshold) }
    if c.timeout || c.stalled then some c else none)

/-- Processing of one flagged entry, outside the lock: a timed-out task gets
`OnTaskTimeout` and is unwatched (timeout wins over stall); a merely stalled
task gets `OnTaskStalled` and stays watched. -/
def fireCheck (s : SchedState) (now : Int) (c : MonCheck) : SchedState :=
  if c.timeout then
    let s := { s with calls := s.calls ++ [.timeout c.id] }
    let s := onTaskTimeoutOp s now c.id
    monitorUnwatch s c.id
  else if c.stalled then
    let s := { s with calls := s.calls ++ [.stalled c.id] }
    onTaskStalledOp s now c.id
  else s

/-- `taskMonitor.checkTasks` (one monitor tick): snapshot, then fire. -/
def checkTasksOp (s : SchedState) (now : Int) : SchedState :=
  (buildChecks s.watched s.config.monitorConfig.stallThreshold now).foldl
    (fun s c => fireCheck s now c) s

/-- The task IDs currently sitting in the pending queue (in slice order). -/
def queueTaskIDs (q : PQ) : List String :=
  (List.range q.size).map (fun i => reqTaskID ((q.arr i).request))

/-- Terminal task statuses per spec §3: Completed, Failed, TimedOut,
Cancelled. -/
def terminalStatus (st : TaskStatus) : Prop :=
  st = .completed ∨ st = .failed ∨ st = .timedOut ∨ st = .cancelled

instance (st : TaskStatus) : Decidable (terminalStatus st) := by
  unfold terminalStatus; infer_instance

/-- Declarative reading of constraint group 1 (spec §4.1): the node is
online. -/
def statusOK (p : GolemProfile) : Prop := p.nodeInfo.status = "online"

/-- Declarative reading of constraint group 2: every required capability
appears among the node's capability names. -/
def capsOK (req : ScheduleRequest) (p : GolemProfile) : Prop :=
  ∀ rc ∈ req.requiredCapabilities, rc ∈ capNames p

/-- Declarative reading of constraint group 3: every required skill matches
some installed skill's ID or name. -/
def skillsOK (req : ScheduleRequest) (p : GolemProfile) : Prop :=
  ∀ rs ∈ req.requiredSkills, rs ∈ skillNames p

/-- Declarative reading of constraint group 4: every required feature is
supported. -/
def featuresOK (req : ScheduleRequest) (p : GolemProfile) : Prop :=
  ∀ rf ∈ req.requiredFeatures, rf ∈ p.supportedFeatures

/-- Declarative reading of constraint group 5 (spec §4.1 / claim C3): for
each non-zero field of `ResourceRequirements` the node satisfies the minimum
or stays under the maximum. -/
def resourcesOK (req : ScheduleRequest) (p : GolemProfile) : Prop :=
  match req.resourceRequirements with
  | none => True
  | some rr =>
    (rr.minCPUCores ≠ 0 → rr.minCPUCores ≤ p.nodeInfo.systemInfo.cpuCores) ∧
    (rr.minMemoryMB ≠ 0 → rr.minMemoryMB ≤ p.nodeInfo.systemInfo.memoryMB) ∧
    (rr.minDiskFreeMB ≠ 0 → rr.minDiskFreeMB ≤ p.nodeInfo.systemInfo.diskFreeMB) ∧
    (rr.maxCPUPercent ≠ 0 → p.load.cpuPercent ≤ rr.maxCPUPercent) ∧
    (rr.maxMemoryPercent ≠ 0 → p.load.memoryPercent ≤ rr.maxMemoryPercent) ∧
    (rr.maxActiveTasks ≠ 0 → p.load.activeTasks ≤ rr.maxActiveTasks)

/-- The fields of `ResourceRequirements` are conceptually non-negative
(cores, megabytes, percentages, task counts); under this domain condition
"non-zero" and "strictly positive" coincide. -/
def rrNonneg (rr : ResourceRequirements) : Prop :=
  0 ≤ rr.minCPUCores ∧ 0 ≤ rr.minMemoryMB ∧ 0 ≤ rr.minDiskFreeMB ∧
  0 ≤ rr.maxCPUPercent ∧ 0 ≤ rr.maxMemoryPercent ∧ 0 ≤ rr.maxActiveTasks

instance (p : GolemProfile) : Decidable (statusOK p) := by
  unfold statusOK; infer_instance

instance (req : ScheduleRequest) (p : GolemProfile) : Decidable (capsOK req p) := by
  unfold capsOK; infer_instance

instance (req : ScheduleRequest) (p : GolemProfile) : Decidable (skillsOK req p) := by
  unfold skillsOK; infer_instance

instance (req : ScheduleRequest) (p : GolemProfile) : Decidable (featuresOK req p) := by
  unfold featuresOK; infer_instance

instance (req : ScheduleRequest) (p : GolemProfile) : Decidable (resourcesOK req p) :=
  match h : req.resourceRequirements with
  | none => .isTrue (by unfold resourcesOK; rw [h]; exact trivial)
  | some rr => decidable_of_iff
      ((rr.minCPUCores ≠ 0 → rr.minCPUCores ≤ p.nodeInfo.systemInfo.cpuCores) ∧
       (rr.minMemoryMB ≠ 0 → rr.minMemoryMB ≤ p.nodeInfo.systemInfo.memoryMB) ∧
       (rr.minDiskFreeMB ≠ 0 → rr.minDiskFreeMB ≤ p.nodeInfo.systemInfo.diskFreeMB) ∧
       (rr.maxCPUPercent ≠ 0 → p.load.cpuPercent ≤ rr.maxCPUPercent) ∧
       (rr.maxMemoryPercent ≠ 0 → p.load.memoryPercent ≤ rr.maxMemoryPercent) ∧
       (rr.maxActiveTasks ≠ 0 → p.load.activeTasks ≤ rr.maxActiveTasks))
      (by unfold resourcesOK; rw [h])

instance (rr : ResourceRequirements) : Decidable (rrNonneg rr) := by
  unfold rrNonneg; infer_instance

/-- The contract Go documents for `sort.Slice` with the
descending-`TotalScore` comparison of `AISelector.Select`: the output is a
permutation of the input, ordered so that no later element has a strictly
larger total score. Stability is explicitly *not* part of the contract. -/
def SortScoresOk (f : List NodeScore → List NodeScore) : Prop :=
  ∀ l : List NodeScore,
    (f l).Perm l ∧ (f l).Pairwise (fun a b => b.totalScore ≤ a.totalScore)

/-- Descending order on total scores, as a relation for insertion sort. -/
def scoreGE (a b : NodeScore) : Prop := b.totalScore ≤ a.totalScore

instance (a b : NodeScore) : Decidable (scoreGE a b) := by
  unfold scoreGE; infer_instance

instance : IsTotal NodeScore scoreGE :=
  ⟨fun a b => le_total b.totalScore a.totalScore⟩

instance : IsTrans NodeScore scoreGE :=
  ⟨fun _ _ _ hab hbc => le_trans hbc hab⟩

/-- A stable conforming implementation of the `sort.Slice` contract
(insertion sort by descending total score). -/
def goodSortScores (l : List NodeScore) : List NodeScore :=
  l.insertionSort scoreGE

/-- Another conforming implementation of the `sort.Slice` contract that
reverses the relative order of equal-score elements (insertion sort of the
reversed list): `sort.Slice` does not promise stability, so an
implementation may reorder ties. -/
def badSortScores (l : List NodeScore) : List NodeScore :=
  l.reverse.insertionSort scoreGE

/-- Selector externals with the stable conforming sort;
`expFn` is arbitrary (never reached by the inputs used below). -/
def extGood : SelectorExt := { expFn := fun _ => 0, sortScores := goodSortScores }

/-- Selector externals with the tie-reversing conforming sort. -/
def extBad : SelectorExt := { expFn := fun _ => 0, sortScores := badSortScores }

/-- The node ID selected by a selector outcome (`none` on error). -/
def selectedOf (r : Except String ScheduleDecision) : Option String :=
  match r with
  | .ok d => some d.selectedNodeID
  | .error _ => none

/-- Whether a selector outcome is an error. -/
def isSelError (r : Except String ScheduleDecision) : Prop :=
  match r with
  | .ok _ => False
  | .error _ => True

instance (r : Except String ScheduleDecision) : Decidable (isSelError r) := by
  unfold isSelError; cases r <;> infer_instance

/-- The per-candidate scores computed by `AISelector.Select`'s first pass. -/
def eligibleScores (w : ScoringWeights) (ext : SelectorExt)
    (req : ScheduleRequest) (candidates : List GolemProfile) : List NodeScore :=
  (candidates.map (scoreAndCheck w ext.expFn req)).filter (fun ns => ns.eligible)

/-- A pending task with default priority and no explicit timeout, used as
concrete input. -/
def taskT1 : Task :=
  { id := "t1", priority := 0, timeout := 0, assignedNodeID := ""
    status := .pending, startedAt := none, completedAt := none }

/-- An AI-mode request around `taskT1` with no requirements and no hints. -/
def baseReq : ScheduleRequest :=
  { task := some taskT1, mode := .ai, targetNodeID := ""
    requiredCapabilities := [], requiredSkills := [], requiredFeatures := []
    preferredTags := [], resourceRequirements := none, hints := none
    requestedAt := 0 }

/-- An idle online profile: zero load, 10 GB free disk — all subscores saturate. -/
def idleProfile (id : String) : GolemProfile :=
  { nodeInfo :=
      { id := id, capabilities := []
        systemInfo := { cpuCores := 4, memoryMB := 8192, diskFreeMB := 10240 }
        status := "online" }
    load := { cpuPercent := 0, memoryPercent := 0, activeTasks := 0, queuedTasks := 0 }
    installedSkills := [], supportedFeatures := [], tags := []
    healthScore := 1, lastUpdated := 0 }

/-- Scenario D request: `Hints.AntiAffinity = ["g1"]`, no other preference. -/
def hintsD : ScheduleHints :=
  { description := "", preferLowLatency := false, preferHighResources := false
    affinity := "", antiAffinity := ["g1"], customContext := [] }

def reqD : ScheduleRequest := { baseReq with hints := some hintsD }

/-- The score record every idle candidate earns under default weights when no
hints are supplied (all subscores 1 except neutral affinity ½; total
0.25+0.20+0.20+0.20+0.10+0.05·½ = 0.975). -/
def nsTie (id : String) : NodeScore :=
  { nodeID := id, totalScore := 39/40, capabilityScore := 1, skillScore := 1
    resourceScore := 1, loadScore := 1, tagScore := 1, affinityScore := 1/2
    eligible := true, rejectReason := "" }

/-- The score record of the anti-affine idle node in Scenario D
(affinity 0; total 0.95). -/
def nsAnti (id : String) : NodeScore :=
  { nodeID := id, totalScore := 19/20, capabilityScore := 1, skillScore := 1
    resourceScore := 1, loadScore := 1, tagScore := 1, affinityScore := 0
    eligible := true, rejectReason := "" }

/-- Non-trivial but satisfiable resource requirements, used as a concrete
input of the constraint checker. -/
def rrW : ResourceRequirements :=
  { minCPUCores := 2, minMemoryMB := 1024, minDiskFreeMB := 0
    maxCPUPercent := 90, maxMemoryPercent := 0, maxActiveTasks := 10 }

/-- A concrete request with a capability requirement and resource minima. -/
def reqW : ScheduleRequest :=
  { baseReq with requiredCapabilities := ["exec"], resourceRequirements := some rrW }

/-- The idle profile extended with the `exec` capability. -/
def profW : GolemProfile :=
  { idleProfile "g1" with nodeInfo :=
      { (idleProfile "g1").nodeInfo with capabilities := [{ name := "exec" }] } }

/-- A direct-mode request around `taskT1` targeting node `g1`. -/
def reqDir : ScheduleRequest := { baseReq with mode := .direct, targetNodeID := "g1" }

/-- A request with an unknown scheduling mode. -/
def reqBadMode : ScheduleRequest := { baseReq with mode := .other "bogus" }

/-- The freshly constructed scheduler. -/
def s0 : SchedState := initialState defaultSchedulerConfig

/-- The scheduler after one successful direct-mode dispatch of `t1` to `g1`
(provider returns one online profile; Dispatch succeeds). -/
def sAfterSched : SchedState :=
  (scheduleOp extGood s0 0 reqDir (.ok [idleProfile "g1"]) true).1

/-- One monitor tick 100 s after dispatch: `t1` is not yet timed out
(default timeout 5 min) but well past the 60 s stall threshold. -/
def sStall : SchedState := checkTasksOp sAfterSched 100000000000

/-- The scheduler after `t1` reports a successful result. -/
def sDone : SchedState :=
  reportResultOp sAfterSched 50 { taskID := "t1", success := true, error := "" }

/-- Cancelling the already-completed `t1`. -/
def sCancel1 : SchedState := (cancelOp sDone 60 "t1").1

/-- Cancelling the running `t1`, then cancelling it again. -/
def sCan1 : SchedState := (cancelOp sAfterSched 50 "t1").1

/-- Second cancellation of the already-cancelled `t1`. -/
def sCan2 : SchedState := (cancelOp sCan1 60 "t1").1

/-- The outcome of scheduling a request with an unknown mode. -/
def sBadPair : SchedState × Except String ScheduleDecision :=
  scheduleOp extGood s0 0 reqBadMode (.ok [idleProfile "g1"]) true

/-- A task record holding a completed task (hand-built minimal state). -/
def recW : TaskRecord :=
  { request := { baseReq with task := some { taskT1 with status := .completed } }
    decision := none, retries := 0 }

/-- A scheduler state whose only task `t1` is already Completed. -/
def sW : SchedState := { s0 with tasks := [("t1", recW)] }

/-- A task record holding a cancelled task. -/
def recC : TaskRecord :=
  { request := { baseReq with task := some { taskT1 with status := .cancelled } }
    decision := none, retries := 0 }

/-- A scheduler state whose only task `t1` is already Cancelled, with one
cancellation already recorded. -/
def sC : SchedState :=
  { s0 with tasks := [("t1", recC)]
            stats := { emptyStats with totalCancelled := 1 } }

/-- The watch entry created for `t1` at dispatch time. -/
def wtT1 : WatchedTask :=
  { task := { taskT1 with assignedNodeID := "g1", status := .assigned, startedAt := some 0 }
    startedAt := 0, lastHeartbeat := 0, timeout := 300000000000 }

/-- The dequeue order of a freshly built queue: repeatedly `Dequeue` (pop)
until empty after enqueuing `rs` into `NewPriorityQueue` with no intervening
dequeue. -/
def dequeueOrder (rs : List ScheduleRequest) : List HeapItem :=
  drainItems (enqueueAll emptyPQ rs).arr (enqueueAll emptyPQ rs).size

/-- The dequeue position of the `k`-th enqueued request, identified by its
sequence stamp `k + 1` (`Enqueue` stamps `1, 2, …` starting from the fresh
queue's zero counter). -/
def posOf (rs : List ScheduleRequest) (k : ℕ) : ℕ :=
  (dequeueOrder rs).findIdx (fun it => it.seq == (k : Int) + 1)

/-- A request around a task with the given ID and priority. -/
def reqP (id : String) (prio : Int) : ScheduleRequest :=
  { baseReq with task := some { taskT1 with id := id, priority := prio } }

/-- Three requests with a priority tie between the first and the last. -/
def qReqs : List ScheduleRequest := [reqP "x" 1, reqP "y" 2, reqP "z" 1]

/-- The task record held for `t1` after the direct dispatch in `sAfterSched`. -/
def recT1 : TaskRecord :=
  (alookup sAfterSched.tasks "t1").getD { request := baseReq, decision := none, retries := 0 }

end Ultronix

namespace Ultronix

/-! ## Theorems -/

theorem len_pos_append (a b : String) (h : 0 < a.length) : 0 < (a ++ b).length := by
  rw [String.length_append]; omega

theorem str_append_ne_empty (a b : String) (h : 0 < a.length) : a ++ b ≠ "" := by
  intro e
  have h0 : (a ++ b).length = 0 := by rw [e]; rfl
  rw [String.length_append] at h0
  omega

theorem find_missing_none_iff (l names : List String) :
    l.find? (fun x => ! names.contains x) = none ↔ ∀ x ∈ l, x ∈ names := by
  rw [List.find?_eq_none]
  constructor
  · intro h x hx
    simpa using h x hx
  · intro h x hx
    simpa using h x hx

/-- Claim C3: `constraintChecker.check` is a pure function of the request and
the profile; it returns `""` exactly when the five constraint groups all pass
(status online; required capabilities against capability names; required
skills against installed skills' IDs or names; required features; the
non-zero fields of `ResourceRequirements`, which are non-negative by domain);
otherwise the result is the reason of the first failing check in the fixed
order, and any profile that is not online is rejected with the status reason
regardless of the other groups. -/
theorem claim_C3 (req : ScheduleRequest) (p : GolemProfile)
    (hrr : ∀ rr, req.resourceRequirements = some rr → rrNonneg rr) :
    (constraintCheck req p = "" ↔
      statusOK p ∧ capsOK req p ∧ skillsOK req p ∧ featuresOK req p ∧ resourcesOK req p)
    ∧ (¬ statusOK p →
        constraintCheck req p = "node status is " ++ fmtQ p.nodeInfo.status ++ ", expected online")
    ∧ (statusOK p → ∀ rc, req.requiredCapabilities.find? (fun x => ! (capNames p).contains x) = some rc →
        constraintCheck req p = "missing required capability " ++ fmtQ rc)
    ∧ (statusOK p → capsOK req p →
        ∀ rs, req.requiredSkills.find? (fun x => ! (skillNames p).contains x) = some rs →
        constraintCheck req p = "missing required skill " ++ fmtQ rs)
    ∧ (statusOK p → capsOK req p → skillsOK req p →
        ∀ rf, req.requiredFeatures.find? (fun x => ! p.supportedFeatures.contains x) = some rf →
        constraintCheck req p = "missing required feature " ++ fmtQ rf)
    ∧ (statusOK p → capsOK req p → skillsOK req p → featuresOK req p → ¬ resourcesOK req p →
        constraintCheck req p ≠ "") := by
  have hstatus : ∀ _ : ¬ statusOK p, constraintCheck req p =
      "node status is " ++ fmtQ p.nodeInfo.status ++ ", expected online" := by
    intro h
    have h' : p.nodeInfo.status ≠ "online" := h
    unfold constraintCheck
    rw [if_pos h']
  have hcapMsg : ∀ _ : statusOK p,
      ∀ rc, req.requiredCapabilities.find? (fun x => ! (capNames p).contains x) = some rc →
      constraintCheck req p = "missing required capability " ++ fmtQ rc := by
    intro hst rc hfind
    unfold constraintCheck
    rw [if_neg (show ¬(p.nodeInfo.status ≠ "online") from fun hn => hn hst), hfind]
  have hskillMsg : ∀ _ : statusOK p, ∀ _ : capsOK req p,
      ∀ rs, req.requiredSkills.find? (fun x => ! (skillNames p).contains x) = some rs →
      constraintCheck req p = "missing required skill " ++ fmtQ rs := by
    intro hst hcaps rs hfind
    unfold constraintCheck
    rw [if_neg (show ¬(p.nodeInfo.status ≠ "online") from fun hn => hn hst),
      (find_missing_none_iff _ _).mpr hcaps, hfind]
  have hfeatMsg : ∀ _ : statusOK p, ∀ _ : capsOK req p, ∀ _ : skillsOK req p,
      ∀ rf, req.requiredFeatures.find? (fun x => ! p.supportedFeatures.contains x) = some rf →
      constraintCheck req p = "missing required feature " ++ fmtQ rf := by
    intro hst hcaps hskills rf hfind
    unfold constraintCheck
    rw [if_neg (show ¬(p.nodeInfo.status ≠ "online") from fun hn => hn hst),
      (find_missing_none_iff _ _).mpr hcaps,
      (find_missing_none_iff _ _).mpr hskills, hfind]
  have hres : ∀ _ : statusOK p, ∀ _ : capsOK req p, ∀ _ : skillsOK req p, ∀ _ : featuresOK req p,
      (constraintCheck req p = "" ↔ resourcesOK req p) := by
    intro hst hcaps hskills hfeats
    unfold constraintCheck
    rw [if_neg (show ¬(p.nodeInfo.status ≠ "online") from fun hn => hn hst),
      (find_missing_none_iff _ _).mpr hcaps,
      (find_missing_none_iff _ _).mpr hskills,
      (find_missing_none_iff _ _).mpr hfeats]
    cases hrreq : req.resourceRequirements with
    | none => simp [resourcesOK, hrreq]
    | some rr =>
      have hnn := hrr rr hrreq
      obtain ⟨h1, h2, h3, h4, h5, h6⟩ := hnn
      simp only [resourcesOK, hrreq]
      constructor
      · intro h
        split at h
        · exact absurd h (by apply str_append_ne_empty; repeat (first | decide | apply len_pos_append))
        · split at h
          · exact absurd h (by apply str_append_ne_empty; repeat (first | decide | apply len_pos_append))
          · split at h
            · exact absurd h (by apply str_append_ne_empty; repeat (first | decide | apply len_pos_append))
            · split at h
              · exact absurd h (by apply str_append_ne_empty; repeat (first | decide | apply len_pos_append))
              · split at h
                · exact absurd h (by apply str_append_ne_empty; repeat (first | decide | apply len_pos_append))
                · split at h
                  · exact absurd h (by apply str_append_ne_empty; repeat (first | decide | apply len_pos_append))
                  · rename_i g1 g2 g3 g4 g5 g6
                    push_neg at g1 g2 g3 g4 g5 g6
                    refine ⟨?_, ?_, ?_, ?_, ?_, ?_⟩
                    · intro hne; exact g1 (by omega)
                    · intro hne; exact g2 (by omega)
                    · intro hne; exact g3 (by omega)
                    · intro hne; exact g4 (lt_of_le_of_ne h4 (Ne.symm hne))
                    · intro hne; exact g5 (lt_of_le_of_ne h5 (Ne.symm hne))
                    · intro hne; exact g6 (by omega)
      · rintro ⟨c1, c2, c3, c4, c5, c6⟩
        have hg1 : ¬(rr.minCPUCores > 0 ∧ p.nodeInfo.systemInfo.cpuCores < rr.minCPUCores) := by
          rintro ⟨ha, hb⟩; have := c1 (by omega); omega
        have hg2 : ¬(rr.minMemoryMB > 0 ∧ p.nodeInfo.systemInfo.memoryMB < rr.minMemoryMB) := by
          rintro ⟨ha, hb⟩; have := c2 (by omega); omega
        have hg3 : ¬(rr.minDiskFreeMB > 0 ∧ p.nodeInfo.systemInfo.diskFreeMB < rr.minDiskFreeMB) := by
          rintro ⟨ha, hb⟩; have := c3 (by omega); omega
        have hg4 : ¬(rr.maxCPUPercent > 0 ∧ p.load.cpuPercent > rr.maxCPUPercent) := by
          rintro ⟨ha, hb⟩; exact absurd (c4 (ne_of_gt ha)) (not_le_of_lt hb)
        have hg5 : ¬(rr.maxMemoryPercent > 0 ∧ p.load.memoryPercent > rr.maxMemoryPercent) := by
          rintro ⟨ha, hb⟩; exact absurd (c5 (ne_of_gt ha)) (not_le_of_lt hb)
        have hg6 : ¬(rr.maxActiveTasks > 0 ∧ p.load.activeTasks > rr.maxActiveTasks) := by
          rintro ⟨ha, hb⟩; have := c6 (by omega); omega
        rw [if_neg hg1, if_neg hg2, if_neg hg3, if_neg hg4, if_neg hg5, if_neg hg6]
  refine ⟨?_, hstatus, hcapMsg, hskillMsg, hfeatMsg, ?_⟩
  · constructor
    · intro h
      by_cases hst : statusOK p
      · by_cases hcaps : capsOK req p
        · by_cases hskills : skillsOK req p
          · by_cases hfeats : featuresOK req p
            · exact ⟨hst, hcaps, hskills, hfeats, (hres hst hcaps hskills hfeats).mp h⟩
            · obtain ⟨rf, hrf⟩ := Option.ne_none_iff_exists'.mp (fun hn =>
                hfeats ((find_missing_none_iff _ _).mp hn))
              exact absurd ((hfeatMsg hst hcaps hskills rf hrf).symm.trans h)
                (str_append_ne_empty _ _ (by decide))
          · obtain ⟨rs, hrs⟩ := Option.ne_none_iff_exists'.mp (fun hn =>
              hskills ((find_missing_none_iff _ _).mp hn))
            exact absurd ((hskillMsg hst hcaps rs hrs).symm.trans h)
              (str_append_ne_empty _ _ (by decide))
        · obtain ⟨rc, hrc⟩ := Option.ne_none_iff_exists'.mp (fun hn =>
            hcaps ((find_missing_none_iff _ _).mp hn))
          exact absurd ((hcapMsg hst rc hrc).symm.trans h)
            (str_append_ne_empty _ _ (by decide))
      · exact absurd ((hstatus hst).symm.trans h)
          (str_append_ne_empty _ _ (len_pos_append _ _ (by decide)))
    · rintro ⟨hst, hcaps, hskills, hfeats, hress⟩
      exact (hres hst hcaps hskills hfeats).mpr hress
  · intro hst hcaps hskills hfeats hress
    intro h
    exact hress ((hres hst hcaps hskills hfeats).mp h)


/-- Witness for C3: at a concrete request (capability requirement plus
resource minima) and a concrete satisfying profile, the checker accepts, via
`claim_C3`. -/
theorem claim_C3_witness :
    constraintCheck reqW profW = "" ∧ statusOK profW := by
  have hrr : ∀ rr, reqW.resourceRequirements = some rr → rrNonneg rr := by
    intro rr hr
    have h0 : (some rrW : Option ResourceRequirements) = some rr := hr
    have he : rr = rrW := (Option.some.inj h0).symm
    rw [he]; decide
  exact ⟨(claim_C3 reqW profW hrr).1.mpr
    ⟨by decide, by decide, by decide, by decide, by decide⟩, by decide⟩

theorem goodSort_ok : SortScoresOk goodSortScores := by
  intro l
  exact ⟨List.perm_insertionSort scoreGE l, List.sorted_insertionSort scoreGE l⟩

theorem badSort_ok : SortScoresOk badSortScores := by
  intro l
  exact ⟨(List.perm_insertionSort scoreGE l.reverse).trans (List.reverse_perm l),
    List.sorted_insertionSort scoreGE l.reverse⟩

theorem perm_pair_cases {α : Type} (l : List α) (x y : α) (h : l.Perm [x, y]) :
    l = [x, y] ∨ l = [y, x] := by
  have hlen := h.length_eq
  match l with
  | [] => simp at hlen
  | [a] => simp at hlen
  | a :: b :: c :: t => simp at hlen
  | [a, b] =>
    have hmem : a ∈ [x, y] := h.subset (by simp)
    rcases (by simpa using hmem : a = x ∨ a = y) with rfl | rfl
    · have hb : b = y := by simpa using List.perm_singleton.mp h.cons_inv
      exact Or.inl (by rw [hb])
    · have h2 : ([a, b] : List α).Perm [a, x] := h.trans (List.Perm.swap a x [])
      have hb : b = x := by simpa using List.perm_singleton.mp h2.cons_inv
      exact Or.inr (by rw [hb])

theorem conformingSort_head (f : List NodeScore → List NodeScore)
    (hf : SortScoresOk f) (l : List NodeScore) (hne : l ≠ []) :
    (f l).headD default ∈ l ∧
    ∀ y ∈ l, y.totalScore ≤ ((f l).headD default).totalScore := by
  obtain ⟨hperm, hsorted⟩ := hf l
  cases hfl : f l with
  | nil =>
    rw [hfl] at hperm
    exact absurd hperm.symm.eq_nil hne
  | cons h t =>
    rw [hfl] at hperm hsorted
    simp only [List.headD_cons]
    refine ⟨hperm.subset (List.mem_cons_self h t), ?_⟩
    intro y hy
    rcases List.mem_cons.mp (hperm.mem_iff.mpr hy) with rfl | hyt
    · exact le_refl _
    · exact (List.pairwise_cons.mp hsorted).1 y hyt

theorem sort_pair_swap (f : List NodeScore → List NodeScore)
    (hf : SortScoresOk f) (a b : NodeScore) (hab : a.totalScore < b.totalScore) :
    f [a, b] = [b, a] := by
  obtain ⟨hperm, hsorted⟩ := hf [a, b]
  rcases perm_pair_cases _ a b hperm with h | h
  · rw [h] at hsorted
    have := (List.pairwise_cons.mp hsorted).1 b (by simp)
    exact absurd this (not_le_of_lt hab)
  · exact h

theorem scoreLoad_idle (expFn : ℚ → ℚ) (id : String) :
    scoreLoad expFn (idleProfile id) = 1 := by
  unfold scoreLoad idleProfile
  norm_num


theorem scoreAndCheck_D1 (expFn : ℚ → ℚ) :
    scoreAndCheck defaultScoringWeights expFn reqD (idleProfile "g1") = nsAnti "g1" := by
  unfold scoreAndCheck scoreProfile constraintCheck scoreCapabilities scoreSkills
    scoreResources scoreTags scoreAffinity
  rw [scoreLoad_idle]
  norm_num [reqD, baseReq, idleProfile, hintsD, defaultScoringWeights, clamp,
    capNames, skillNames, nsAnti, taskT1]

theorem scoreAndCheck_D2 (expFn : ℚ → ℚ) :
    scoreAndCheck defaultScoringWeights expFn reqD (idleProfile "g2") = nsTie "g2" := by
  unfold scoreAndCheck scoreProfile constraintCheck scoreCapabilities scoreSkills
    scoreResources scoreTags scoreAffinity
  rw [scoreLoad_idle]
  norm_num [reqD, baseReq, idleProfile, hintsD, defaultScoringWeights, clamp,
    capNames, skillNames, nsTie, taskT1]
  refine ⟨?_, by decide⟩
  rw [if_neg (by decide)]
  norm_num

/-- Claim C9: the affinity subscore is 0.0 for a node in `AntiAffinity`
(anti-affinity wins even when the node also equals the `Affinity` hint),
1.0 for a node equal to a non-empty `Affinity` hint and not anti-affine,
and 0.5 otherwise — including whenever `Hints` is nil; and in Scenario D
(two identically-resourced idle nodes, `AntiAffinity=["g1"]`) node `g1`
scores 0, node `g2` scores 0.5 and `g2` is selected whatever conforming
sort `sort.Slice` applies. -/
theorem claim_C9 (ext : SelectorExt) (hf : SortScoresOk ext.sortScores) :
    (∀ (req : ScheduleRequest) (p : GolemProfile),
      (req.hints = none → scoreAffinity req p = 1/2) ∧
      (∀ h, req.hints = some h →
        (p.nodeInfo.id ∈ h.antiAffinity → scoreAffinity req p = 0) ∧
        (p.nodeInfo.id ∉ h.antiAffinity → h.affinity ≠ "" → h.affinity = p.nodeInfo.id →
          scoreAffinity req p = 1) ∧
        (p.nodeInfo.id ∉ h.antiAffinity → (h.affinity = "" ∨ h.affinity ≠ p.nodeInfo.id) →
          scoreAffinity req p = 1/2)))
    ∧ scoreAffinity reqD (idleProfile "g1") = 0
    ∧ scoreAffinity reqD (idleProfile "g2") = 1/2
    ∧ selectedOf (aiSelect defaultScoringWeights ext 0 reqD
        [idleProfile "g1", idleProfile "g2"]) = some "g2" := by
  refine ⟨?_, by norm_num [scoreAffinity, reqD, hintsD, idleProfile, baseReq],
    by norm_num [scoreAffinity, reqD, hintsD, idleProfile, baseReq] <;> decide, ?_⟩
  · intro req p
    constructor
    · intro hn
      unfold scoreAffinity
      rw [hn]
    · intro h hh
      unfold scoreAffinity
      rw [hh]
      dsimp only
      refine ⟨?_, ?_, ?_⟩
      · intro hmem
        rw [if_pos (by simpa using hmem)]
      · intro hnmem hne heq
        rw [if_neg (by simpa using hnmem), if_pos ⟨hne, heq⟩]
      · intro hnmem hor
        rw [if_neg (by simpa using hnmem), if_neg ?_]
        rintro ⟨hne, heq⟩
        rcases hor with he | hno
        · exact hne he
        · exact hno heq
  · unfold aiSelect
    rw [if_neg (by decide)]
    have hmap : ([idleProfile "g1", idleProfile "g2"].map
        (scoreAndCheck defaultScoringWeights ext.expFn reqD)) = [nsAnti "g1", nsTie "g2"] := by
      simp [scoreAndCheck_D1, scoreAndCheck_D2]
    rw [hmap]
    dsimp only
    have hfilter : ([nsAnti "g1", nsTie "g2"].filter (fun ns => ns.eligible)) =
        [nsAnti "g1", nsTie "g2"] := by simp [nsAnti, nsTie]
    rw [hfilter]
    rw [if_neg (by decide)]
    rw [sort_pair_swap ext.sortScores hf (nsAnti "g1") (nsTie "g2")
      (by norm_num [nsAnti, nsTie])]
    rfl

/-- Witness for C9 at the stable conforming sort implementation. -/
theorem claim_C9_witness :
    SortScoresOk goodSortScores ∧
    selectedOf (aiSelect defaultScoringWeights extGood 0 reqD
      [idleProfile "g1", idleProfile "g2"]) = some "g2" :=
  ⟨goodSort_ok, (claim_C9 extGood goodSort_ok).2.2.2⟩


theorem scoreAndCheck_base (expFn : ℚ → ℚ) (id : String) :
    scoreAndCheck defaultScoringWeights expFn baseReq (idleProfile id) = nsTie id := by
  unfold scoreAndCheck scoreProfile constraintCheck scoreCapabilities scoreSkills
    scoreResources scoreTags scoreAffinity
  rw [scoreLoad_idle]
  norm_num [baseReq, idleProfile, defaultScoringWeights, clamp,
    capNames, skillNames, nsTie, taskT1]

/-- Claim C2, amended: for every conforming implementation of the
`sort.Slice` contract, `AISelector.Select` on a non-empty candidate list with
at least one eligible node returns a node whose `TotalScore` is maximal among
the eligible scores (the tie-break among equal maxima is *not* specified:
`sort.Slice` is not stable), and it errors exactly when the candidate list is
empty or no candidate is eligible. -/
theorem claim_C2 (ext : SelectorExt) (hf : SortScoresOk ext.sortScores)
    (w : ScoringWeights) (now : Int) (req : ScheduleRequest)
    (candidates : List GolemProfile) :
    (∀ d, aiSelect w ext now req candidates = .ok d →
      ∃ ns, ns ∈ eligibleScores w ext req candidates ∧
        d.selectedNodeID = ns.nodeID ∧
        ∀ ns2 ∈ eligibleScores w ext req candidates, ns2.totalScore ≤ ns.totalScore)
    ∧ (isSelError (aiSelect w ext now req candidates) ↔
        candidates = [] ∨ eligibleScores w ext req candidates = []) := by
  unfold aiSelect
  by_cases hc : candidates.length = 0
  · rw [if_pos hc]
    refine ⟨fun d hd => absurd hd (by simp), ?_⟩
    constructor
    · intro _
      exact Or.inl (List.length_eq_zero.mp hc)
    · intro _
      unfold isSelError
      trivial
  · rw [if_neg hc]
    dsimp only
    by_cases he :
        ((candidates.map (scoreAndCheck w ext.expFn req)).filter (fun ns => ns.eligible)).length = 0
    · rw [if_pos he]
      refine ⟨fun d hd => absurd hd (by simp), ?_⟩
      constructor
      · intro _
        exact Or.inr (List.length_eq_zero.mp he)
      · intro _
        unfold isSelError
        trivial
    · rw [if_neg he]
      have hne : (candidates.map (scoreAndCheck w ext.expFn req)).filter (fun ns => ns.eligible) ≠ [] := by
        intro h0
        exact he (by rw [h0]; rfl)
      have hhead := conformingSort_head ext.sortScores hf _ hne
      constructor
      · intro d hd
        have hdv := (Except.ok.inj hd).symm
        refine ⟨((ext.sortScores ((candidates.map (scoreAndCheck w ext.expFn req)).filter
            (fun ns => ns.eligible))).headD default), hhead.1, ?_, hhead.2⟩
        rw [hdv]
      · constructor
        · intro hab
          exact absurd hab (by unfold isSelError; simp)
        · intro hor
          rcases hor with h0 | h0
          · exact absurd h0 (fun hh => hc (by rw [hh]; rfl))
          · exact absurd h0 hne

/-- Witness for the amended C2: at the stable conforming sort and an empty
candidate list, `Select` errors. -/
theorem claim_C2_witness :
    isSelError (aiSelect defaultScoringWeights extGood 0 baseReq []) :=
  (claim_C2 extGood goodSort_ok defaultScoringWeights 0 baseReq []).2.mpr (Or.inl rfl)

theorem badSort_tie_pair :
    badSortScores [nsTie "g1", nsTie "g2"] = [nsTie "g2", nsTie "g1"] := by
  unfold badSortScores
  rw [show ([nsTie "g1", nsTie "g2"].reverse) = [nsTie "g2", nsTie "g1"] from rfl]
  simp only [List.insertionSort, List.orderedInsert]
  rw [if_pos (by norm_num [scoreGE, nsTie])]

/-- Counterexample to C2 as stated: `badSortScores` satisfies the documented
`sort.Slice` contract, the two (identical, both eligible) candidates have
equal `TotalScore`, yet the selector picks `g2`, not the input-earlier `g1`:
the stable tie-break claimed by the spec is not guaranteed by the code,
which uses the explicitly-unstable `sort.Slice`. -/
theorem claim_C2_counterexample :
    SortScoresOk badSortScores ∧
    (scoreAndCheck defaultScoringWeights extBad.expFn baseReq (idleProfile "g1")).totalScore =
      (scoreAndCheck defaultScoringWeights extBad.expFn baseReq (idleProfile "g2")).totalScore ∧
    (scoreAndCheck defaultScoringWeights extBad.expFn baseReq (idleProfile "g1")).eligible = true ∧
    (scoreAndCheck defaultScoringWeights extBad.expFn baseReq (idleProfile "g2")).eligible = true ∧
    (idleProfile "g1").nodeInfo.id ≠ (idleProfile "g2").nodeInfo.id ∧
    selectedOf (aiSelect defaultScoringWeights extBad 0 baseReq
      [idleProfile "g1", idleProfile "g2"]) = some (idleProfile "g2").nodeInfo.id := by
  refine ⟨badSort_ok, ?_, ?_, ?_, by decide, ?_⟩
  · rw [scoreAndCheck_base, scoreAndCheck_base]
    rfl
  · rw [scoreAndCheck_base]; rfl
  · rw [scoreAndCheck_base]; rfl
  · unfold aiSelect
    rw [if_neg (by decide)]
    have hmap : ([idleProfile "g1", idleProfile "g2"].map
        (scoreAndCheck defaultScoringWeights extBad.expFn baseReq)) = [nsTie "g1", nsTie "g2"] := by
      simp [scoreAndCheck_base]
    rw [hmap]
    dsimp only
    have hfilter : ([nsTie "g1", nsTie "g2"].filter (fun ns => ns.eligible)) =
        [nsTie "g1", nsTie "g2"] := by simp [nsTie]
    rw [hfilter]
    rw [if_neg (by decide)]
    rw [show extBad.sortScores = badSortScores from rfl, badSort_tie_pair]
    rfl



theorem find?_append_none {α : Type} (p : α → Bool) (l1 l2 : List α)
    (h : l1.find? p = none) : (l1 ++ l2).find? p = l2.find? p := by
  induction l1 with
  | nil => rfl
  | cons a t ih =>
    cases hpa : p a with
    | true =>
      rw [List.find?_cons_of_pos _ hpa] at h
      exact absurd h (by simp)
    | false =>
      have hpa' : ¬ p a = true := by simp [hpa]
      rw [List.find?_cons_of_neg _ hpa'] at h
      rw [List.cons_append, List.find?_cons_of_neg _ hpa']
      exact ih h

theorem find?_upsert_map {β : Type} (l : List (String × β)) (k : String) (v : β) :
    (l.find? (fun kv => kv.1 == k)).isSome →
    (l.map (fun kv => if kv.1 == k then (k, v) else kv)).find? (fun kv => kv.1 == k) =
      some (k, v) := by
  induction l with
  | nil => intro hp; simp at hp
  | cons a t ih =>
    intro hp
    cases ha : (a.1 == k) with
    | true =>
      simp only [List.map_cons, if_pos ha]
      simp [List.find?_cons]
    | false =>
      simp only [List.find?_cons, ha] at hp
      simp only [List.map_cons, ha, Bool.false_eq_true, if_false, List.find?_cons]
      exact ih hp

theorem alookup_aupsert {β : Type} (l : List (String × β)) (k : String) (v : β) :
    alookup (aupsert l k v) k = some v := by
  unfold aupsert
  split
  · rename_i hp
    unfold alookup
    rw [find?_upsert_map l k v hp]
    rfl
  · rename_i hp
    unfold alookup
    rw [find?_append_none _ _ _ (Option.not_isSome_iff_eq_none.mp hp)]
    simp

theorem find?_upsert_map_ne {β : Type} (l : List (String × β)) (k k' : String) (v : β)
    (hne : k' ≠ k) :
    (l.map (fun kv => if kv.1 == k then (k, v) else kv)).find? (fun kv => kv.1 == k') =
      l.find? (fun kv => kv.1 == k') := by
  induction l with
  | nil => rfl
  | cons a t ih =>
    cases ha : (a.1 == k) with
    | true =>
      have hak : a.1 = k := by simpa using ha
      have hkk' : (k == k') = false := by
        simp only [beq_eq_false_iff_ne]
        exact fun h => hne h.symm
      have hak' : (a.1 == k') = false := by rw [hak]; exact hkk'
      simp only [List.map_cons, if_pos ha, List.find?_cons, hkk', hak']
      exact ih
    | false =>
      simp only [List.map_cons, ha, Bool.false_eq_true, if_false, List.find?_cons]
      cases hb : (a.1 == k') with
      | true => simp [hb]
      | false => simp only [hb]; exact ih

theorem alookup_aupsert_ne {β : Type} (l : List (String × β)) (k k' : String) (v : β)
    (hne : k' ≠ k) : alookup (aupsert l k v) k' = alookup l k' := by
  unfold aupsert
  split
  · unfold alookup
    rw [find?_upsert_map_ne l k k' v hne]
  · rename_i hp
    unfold alookup
    cases hfl : l.find? (fun kv => kv.1 == k') with
    | some kv =>
      congr 1
      clear hp
      induction l with
      | nil => simp at hfl
      | cons a t ih =>
        rw [List.cons_append]
        cases hb : (a.1 == k') with
        | true =>
          simp only [List.find?_cons, hb] at hfl ⊢
          exact hfl
        | false =>
          simp only [List.find?_cons, hb] at hfl ⊢
          exact ih hfl
    | none =>
      rw [find?_append_none _ _ _ hfl]
      have hkk' : (k == k') = false := by
        simp only [beq_eq_false_iff_ne]
        exact fun h => hne h.symm
      simp [List.find?_cons, hkk']

theorem alookup_aerase {β : Type} (l : List (String × β)) (k : String) :
    alookup (aerase l k) k = none := by
  unfold alookup aerase
  rw [List.find?_eq_none.mpr]
  · rfl
  · intro kv hkv
    have hq := (List.mem_filter.mp hkv).2
    simp only [bne_iff_ne, ne_eq] at hq
    simpa using hq

theorem alookup_aerase_ne {β : Type} (l : List (String × β)) (k k' : String)
    (hne : k' ≠ k) : alookup (aerase l k) k' = alookup l k' := by
  unfold alookup aerase
  congr 1
  induction l with
  | nil => rfl
  | cons a t ih =>
    cases hq : (a.1 != k) with
    | true =>
      simp only [List.filter_cons, hq, if_true]
      simp only [List.find?_cons]
      cases hb : (a.1 == k') with
      | true => simp [hb]
      | false => simp only [hb]; exact ih
    | false =>
      simp only [List.filter_cons, hq, Bool.false_eq_true, if_false]
      have hak : a.1 = k := by simpa using hq
      have hb : (a.1 == k') = false := by
        rw [hak]
        simp only [beq_eq_false_iff_ne]
        exact fun h => hne h.symm
      simp only [List.find?_cons, hb]
      exact ih


/-- Claim C10: cancelling a task ID that was never scheduled (no record, not
queued) still increments `TotalCancelled`, emits a `Cancelled` event whose
task pointer is nil, leaves the task table unchanged, and returns nil. -/
theorem claim_C10 (s : SchedState) (now : Int) (id : String)
    (hrec : alookup s.tasks id = none) (hq : pqFindIdx s.queue id = none) :
    (cancelOp s now id).2 = none ∧
    (cancelOp s now id).1.stats.totalCancelled = s.stats.totalCancelled + 1 ∧
    (cancelOp s now id).1.events = s.events ++ [mkEvent .cancelled none now] ∧
    (cancelOp s now id).1.tasks = s.tasks := by
  unfold cancelOp pqRemove
  rw [hq]
  dsimp only
  unfold setTaskStatus monitorUnwatch
  dsimp only
  rw [hrec]
  dsimp only
  unfold emitEvent getTaskS recordCancellation
  dsimp only
  rw [hrec]
  exact ⟨rfl, rfl, rfl, rfl⟩

/-- Witness for C10: cancelling the unknown ID `tX` on the fresh scheduler. -/
theorem claim_C10_witness :
    (cancelOp s0 5 "tX").2 = none ∧
    (cancelOp s0 5 "tX").1.stats.totalCancelled = s0.stats.totalCancelled + 1 ∧
    (cancelOp s0 5 "tX").1.events = s0.events ++ [mkEvent .cancelled none 5] := by
  have h := claim_C10 s0 5 "tX" rfl rfl
  exact ⟨h.1, h.2.1, h.2.2.1⟩


/-- Claim C8, amended: cancelling an already-cancelled (or unknown) task that
is no longer queued still returns nil and leaves the task's status at
Cancelled (or absent), but it is *not* a no-op: `TotalCancelled` is
incremented again and another `Cancelled` event is emitted on every call. -/
theorem claim_C8 (s : SchedState) (now : Int) (id : String)
    (hq : pqFindIdx s.queue id = none)
    (hst : ∀ rec, alookup s.tasks id = some rec →
      ∃ t, rec.request.task = some t ∧ t.status = .cancelled) :
    (cancelOp s now id).2 = none ∧
    (cancelOp s now id).1.stats.totalCancelled = s.stats.totalCancelled + 1 ∧
    (cancelOp s now id).1.events.length = s.events.length + 1 ∧
    (getTaskS (cancelOp s now id).1 id).map Task.status =
      (getTaskS s id).map Task.status := by
  unfold cancelOp pqRemove
  rw [hq]
  dsimp only
  rw [if_neg Bool.false_ne_true]
  unfold setTaskStatus monitorUnwatch
  dsimp only
  cases hrec : alookup s.tasks id with
  | none =>
    dsimp only
    unfold emitEvent getTaskS recordCancellation
    dsimp only
    rw [hrec]
    exact ⟨rfl, rfl, by simp, rfl⟩
  | some rec =>
    obtain ⟨t, ht, hcst⟩ := hst rec hrec
    dsimp only
    rw [ht]
    dsimp only
    unfold emitEvent getTaskS recordCancellation
    dsimp only
    rw [alookup_aupsert]
    unfold recTask
    dsimp only
    rw [hrec]
    dsimp only
    rw [ht]
    refine ⟨rfl, rfl, by simp, ?_⟩
    simp [hcst]

/-- Witness for C8 on a hand-built state whose only task is Cancelled. -/
theorem claim_C8_witness :
    (cancelOp sC 9 "t1").2 = none ∧
    (cancelOp sC 9 "t1").1.stats.totalCancelled = sC.stats.totalCancelled + 1 := by
  have h := claim_C8 sC 9 "t1" rfl (fun rec hrec => by
    have h0 : (some recC : Option TaskRecord) = some rec := hrec
    have he : rec = recC := (Option.some.inj h0).symm
    rw [he]
    exact ⟨{ taskT1 with status := .cancelled }, rfl, rfl⟩)
  exact ⟨h.1, h.2.1⟩

/-- Counterexample to C8 as stated: after `t1` has been cancelled once
(`TotalCancelled = 1`), a second `Cancel` is not a no-op — it increments
`TotalCancelled` to 2 and emits a further `Cancelled` event (while still
returning nil). -/
theorem claim_C8_counterexample :
    (getTaskS sCan1 "t1").map Task.status = some TaskStatus.cancelled ∧
    sCan1.stats.totalCancelled = 1 ∧
    (cancelOp sCan1 60 "t1").2 = none ∧
    sCan2.stats.totalCancelled = 2 ∧
    sCan2.events.length = sCan1.events.length + 1 := by decide


theorem getTaskS_setTaskStatus (s : SchedState) (id : String) (st : TaskStatus)
    (rec : TaskRecord) (t : Task)
    (hrec : alookup s.tasks id = some rec) (ht : rec.request.task = some t) :
    getTaskS (setTaskStatus s id st) id = some { t with status := st } := by
  unfold setTaskStatus
  rw [hrec]
  dsimp only
  rw [ht]
  unfold getTaskS
  dsimp only
  rw [alookup_aupsert]
  unfold recTask
  dsimp only

theorem getTaskS_emitEvent (s : SchedState) (e : TaskEvent) (id : String) :
    getTaskS (emitEvent s e) id = getTaskS s id := rfl

/-- Claim C5, amended: the status mutations are unconditional — with a known
record, `Cancel` always sets Cancelled, `ReportResult` always sets
Completed/Failed (stamping `CompletedAt`), `OnTaskTimeout` always sets
TimedOut, whatever the previous status (so a terminal status *can* be
overwritten); only `OnTaskStalled` leaves the status unchanged. -/
theorem claim_C5 (s : SchedState) (now : Int) (id : String)
    (rec : TaskRecord) (t : Task)
    (hrec : alookup s.tasks id = some rec) (ht : rec.request.task = some t) :
    getTaskS ((cancelOp s now id).1) id = some { t with status := .cancelled } ∧
    (∀ success : Bool,
      getTaskS (reportResultOp s now { taskID := id, success := success, error := "e" }) id =
        some { t with completedAt := some now
                      status := if success then .completed else .failed }) ∧
    getTaskS (onTaskTimeoutOp s now id) id = some { t with status := .timedOut } ∧
    getTaskS (onTaskStalledOp s now id) id = some t := by
  refine ⟨?_, ?_, ?_, ?_⟩
  · unfold cancelOp
    dsimp only
    split
    · dsimp only
      rw [getTaskS_emitEvent]
      exact getTaskS_setTaskStatus _ id .cancelled rec t hrec ht
    · dsimp only
      rw [getTaskS_emitEvent]
      exact getTaskS_setTaskStatus _ id .cancelled rec t hrec ht
  · intro success
    unfold reportResultOp monitorUnwatch
    dsimp only
    rw [hrec]
    dsimp only
    rw [ht]
    dsimp only
    cases success with
    | true =>
      rw [if_pos rfl]
      rw [getTaskS_emitEvent]
      unfold getTaskS
      dsimp only
      rw [alookup_aupsert]
      unfold recTask
      dsimp only
    | false =>
      rw [if_neg Bool.false_ne_true]
      rw [getTaskS_emitEvent]
      unfold getTaskS
      dsimp only
      rw [alookup_aupsert]
      unfold recTask
      dsimp only
  · unfold onTaskTimeoutOp
    rw [getTaskS_emitEvent]
    exact getTaskS_setTaskStatus _ id .timedOut rec t hrec ht
  · unfold onTaskStalledOp
    rw [hrec]
    dsimp only
    split
    · rw [getTaskS_emitEvent]
      unfold getTaskS
      dsimp only
      rw [alookup_aupsert]
      unfold recTask
      dsimp only
      rw [ht]
    · rw [getTaskS_emitEvent]
      unfold getTaskS
      dsimp only
      rw [hrec]
      unfold recTask
      exact ht


/-- Witness for the amended C5: cancelling a Completed task flips its status
to Cancelled, via `claim_C5`. -/
theorem claim_C5_witness :
    getTaskS ((cancelOp sW 7 "t1").1) "t1" = some { taskT1 with status := .cancelled } := by
  have h := claim_C5 sW 7 "t1" recW ({ taskT1 with status := .completed }) (by decide) rfl
  exact h.1

/-- Counterexample to C5 as stated: after a successful result `t1` is
Completed (a terminal status), yet a subsequent `Cancel` moves it to
Cancelled — a transition out of a terminal status. -/
theorem claim_C5_counterexample :
    (getTaskS sDone "t1").map Task.status = some TaskStatus.completed ∧
    terminalStatus TaskStatus.completed ∧
    (getTaskS sCancel1 "t1").map Task.status = some TaskStatus.cancelled ∧
    TaskStatus.cancelled ≠ TaskStatus.completed := by decide


theorem tryDispatch_err_unchanged (ext : SelectorExt) (s : SchedState) (now : Int)
    (req : ScheduleRequest) (profilesRes : Except String (List GolemProfile))
    (dispatchOk : Bool)
    (hmode : (∃ m, req.mode = .other m) ∨ (req.mode = .direct ∧ req.targetNodeID = "")) :
    ∃ e, tryDispatchOp ext s now req profilesRes dispatchOk = (s, .error e) := by
  unfold tryDispatchOp
  cases profilesRes with
  | error e => exact ⟨_, rfl⟩
  | ok candidates =>
    dsimp only
    by_cases hc : candidates.length = 0
    · rw [if_pos hc]
      exact ⟨_, rfl⟩
    · rw [if_neg hc]
      rcases hmode with ⟨m, hm⟩ | ⟨hm, ht⟩
      · unfold selectByMode
        rw [hm]
        exact ⟨_, rfl⟩
      · unfold selectByMode directSelect
        rw [hm]
        dsimp only
        rw [if_pos ht]
        exact ⟨_, rfl⟩

/-- Claim C7, amended: a nil task is rejected synchronously with no state
change at all; but an unknown mode, or direct mode with an empty target ID,
is only rejected *after* the submission counter has been incremented, and the
request is then enqueued and a `Submitted` event emitted (the spec's
"do not mutate state" holds only for the nil-task case). -/
theorem claim_C7 (ext : SelectorExt) (s : SchedState) (now : Int)
    (req : ScheduleRequest) (profilesRes : Except String (List GolemProfile))
    (dispatchOk : Bool) :
    (req.task = none →
      scheduleOp ext s now req profilesRes dispatchOk =
        (s, .error "scheduler: task must not be nil")) ∧
    (∀ t, req.task = some t →
      ((∃ m, req.mode = .other m) ∨ (req.mode = .direct ∧ req.targetNodeID = "")) →
      isSelError (scheduleOp ext s now req profilesRes dispatchOk).2 ∧
      (scheduleOp ext s now req profilesRes dispatchOk).1.stats.totalSubmitted =
        s.stats.totalSubmitted + 1 ∧
      (scheduleOp ext s now req profilesRes dispatchOk).1.queue.size = s.queue.size + 1 ∧
      (scheduleOp ext s now req profilesRes dispatchOk).1.events =
        s.events ++ [mkEvent .submitted req.task now]) := by
  constructor
  · intro hnil
    unfold scheduleOp
    rw [hnil]
  · intro t htask hmode
    unfold scheduleOp
    rw [htask]
    dsimp only
    obtain ⟨e, he⟩ := tryDispatch_err_unchanged ext
      { s with stats := recordSubmission s.stats } now req profilesRes dispatchOk hmode
    rw [he]
    dsimp only
    unfold emitEvent recordSubmission pqEnqueue
    dsimp only
    exact ⟨trivial, rfl, rfl, rfl⟩

/-- Witness for C7: scheduling a nil task returns the validation error and
the state unchanged, via `claim_C7`. -/
theorem claim_C7_witness :
    scheduleOp extGood s0 0 { baseReq with task := none } (.ok []) true =
      (s0, .error "scheduler: task must not be nil") :=
  (claim_C7 extGood s0 0 { baseReq with task := none } (.ok []) true).1 rfl

/-- Counterexample to C7 as stated: a request with unknown mode `"bogus"` is
rejected, yet the submission counter was incremented, the request was
enqueued and a `Submitted` event was emitted — state is mutated. -/
theorem claim_C7_counterexample :
    isSelError sBadPair.2 ∧
    sBadPair.1.stats.totalSubmitted = 1 ∧
    sBadPair.1.queue.size = 1 ∧
    sBadPair.1.events.map TaskEvent.type = [EventType.submitted] := by decide


theorem watched_setTaskStatus (s : SchedState) (id : String) (st : TaskStatus) :
    (setTaskStatus s id st).watched = s.watched := by
  unfold setTaskStatus
  cases alookup s.tasks id with
  | none => rfl
  | some rec =>
    dsimp only
    cases rec.request.task with
    | none => rfl
    | some t => rfl

theorem calls_setTaskStatus (s : SchedState) (id : String) (st : TaskStatus) :
    (setTaskStatus s id st).calls = s.calls := by
  unfold setTaskStatus
  cases alookup s.tasks id with
  | none => rfl
  | some rec =>
    dsimp only
    cases rec.request.task with
    | none => rfl
    | some t => rfl

theorem watched_onTaskTimeoutOp (s : SchedState) (now : Int) (id : String) :
    (onTaskTimeoutOp s now id).watched = s.watched := by
  unfold onTaskTimeoutOp emitEvent
  dsimp only
  rw [watched_setTaskStatus]

theorem calls_onTaskTimeoutOp (s : SchedState) (now : Int) (id : String) :
    (onTaskTimeoutOp s now id).calls = s.calls := by
  unfold onTaskTimeoutOp emitEvent
  dsimp only
  rw [calls_setTaskStatus]

theorem watched_onTaskStalledOp (s : SchedState) (now : Int) (id : String) :
    (onTaskStalledOp s now id).watched = s.watched := by
  unfold onTaskStalledOp
  cases alookup s.tasks id with
  | none => rfl
  | some rec =>
    dsimp only
    split
    · rfl
    · rfl

theorem calls_onTaskStalledOp (s : SchedState) (now : Int) (id : String) :
    (onTaskStalledOp s now id).calls = s.calls := by
  unfold onTaskStalledOp
  cases alookup s.tasks id with
  | none => rfl
  | some rec =>
    dsimp only
    split
    · rfl
    · rfl

theorem fireCheck_watched (s : SchedState) (now : Int) (c : MonCheck) :
    (fireCheck s now c).watched =
      if c.timeout then aerase s.watched c.id else s.watched := by
  unfold fireCheck
  cases hct : c.timeout with
  | true =>
    rw [if_pos rfl]
    unfold monitorUnwatch
    dsimp only
    rw [watched_onTaskTimeoutOp]
    simp
  | false =>
    rw [if_neg Bool.false_ne_true]
    cases hcs : c.stalled with
    | true =>
      rw [if_pos rfl]
      rw [watched_onTaskStalledOp _ now c.id]
      simp
    | false =>
      rw [if_neg Bool.false_ne_true]
      simp

theorem fireCheck_calls (s : SchedState) (now : Int) (c : MonCheck) :
    (fireCheck s now c).calls =
      if c.timeout then s.calls ++ [HandlerCall.timeout c.id]
      else if c.stalled then s.calls ++ [HandlerCall.stalled c.id]
      else s.calls := by
  unfold fireCheck
  cases hct : c.timeout with
  | true =>
    rw [if_pos rfl]
    unfold monitorUnwatch
    dsimp only
    rw [calls_onTaskTimeoutOp]
    simp
  | false =>
    rw [if_neg Bool.false_ne_true]
    cases hcs : c.stalled with
    | true =>
      rw [if_pos rfl]
      rw [calls_onTaskStalledOp _ now c.id]
      simp
    | false =>
      rw [if_neg Bool.false_ne_true]
      simp

theorem fold_watch_none (now : Int) (cs : List MonCheck) :
    ∀ (s : SchedState) (id : String), alookup s.watched id = none →
    alookup ((cs.foldl (fun s c => fireCheck s now c) s)).watched id = none := by
  induction cs with
  | nil => intro s id h; exact h
  | cons c rest ih =>
    intro s id h
    rw [List.foldl_cons]
    apply ih
    rw [fireCheck_watched]
    split
    · by_cases hid : id = c.id
      · rw [hid]; exact alookup_aerase _ _
      · rw [alookup_aerase_ne _ _ _ hid]; exact h
    · exact h

theorem fold_watch_erased (now : Int) (cs : List MonCheck) :
    ∀ (s : SchedState) (id : String),
    (∃ c ∈ cs, c.id = id ∧ c.timeout = true) →
    alookup ((cs.foldl (fun s c => fireCheck s now c) s)).watched id = none := by
  induction cs with
  | nil => intro s id h; simp at h
  | cons c rest ih =>
    intro s id h
    rw [List.foldl_cons]
    rcases h with ⟨c0, hc0, hcid, hct⟩
    rcases List.mem_cons.mp hc0 with rfl | hrest
    · apply fold_watch_none
      rw [fireCheck_watched, if_pos hct, ← hcid]
      exact alookup_aerase _ _
    · exact ih _ id ⟨c0, hrest, hcid, hct⟩

theorem fold_watch_keep (now : Int) (cs : List MonCheck) :
    ∀ (s : SchedState) (id : String),
    (∀ c ∈ cs, c.id ≠ id ∨ c.timeout = false) →
    alookup ((cs.foldl (fun s c => fireCheck s now c) s)).watched id =
      alookup s.watched id := by
  induction cs with
  | nil => intro s id _; rfl
  | cons c rest ih =>
    intro s id h
    rw [List.foldl_cons, ih _ id (fun c0 hc0 => h c0 (List.mem_cons_of_mem c hc0))]
    rw [fireCheck_watched]
    rcases h c (List.mem_cons_self c rest) with hne | hto
    · split
      · exact alookup_aerase_ne _ _ _ (fun he => hne he.symm)
      · rfl
    · rw [hto]
      rw [if_neg Bool.false_ne_true]

theorem fold_calls_mono (now : Int) (cs : List MonCheck) :
    ∀ (s : SchedState) (x : HandlerCall), x ∈ s.calls →
    x ∈ ((cs.foldl (fun s c => fireCheck s now c) s)).calls := by
  induction cs with
  | nil => intro s x h; exact h
  | cons c rest ih =>
    intro s x h
    rw [List.foldl_cons]
    apply ih
    rw [fireCheck_calls]
    split
    · exact List.mem_append_left _ h
    · split
      · exact List.mem_append_left _ h
      · exact h

theorem fold_calls_add (now : Int) (cs : List MonCheck) :
    ∀ (s : SchedState) (c : MonCheck), c ∈ cs →
    (c.timeout = true → HandlerCall.timeout c.id ∈ ((cs.foldl (fun s c => fireCheck s now c) s)).calls) ∧
    (c.timeout = false → c.stalled = true → HandlerCall.stalled c.id ∈ ((cs.foldl (fun s c => fireCheck s now c) s)).calls) := by
  induction cs with
  | nil => intro s c h; simp at h
  | cons c0 rest ih =>
    intro s c h
    rcases List.mem_cons.mp h with rfl | hrest
    · constructor
      · intro hct
        rw [List.foldl_cons]
        apply fold_calls_mono
        rw [fireCheck_calls, if_pos hct]
        exact List.mem_append_right _ (List.mem_singleton_self _)
      · intro hct hcs
        rw [List.foldl_cons]
        apply fold_calls_mono
        rw [fireCheck_calls, hct, if_neg Bool.false_ne_true, if_pos hcs]
        exact List.mem_append_right _ (List.mem_singleton_self _)
    · rw [List.foldl_cons]
      exact ih _ c hrest

theorem alookup_of_mem_nodup {β : Type} (l : List (String × β))
    (hnd : (l.map Prod.fst).Nodup) :
    ∀ kv ∈ l, alookup l kv.1 = some kv.2 := by
  induction l with
  | nil => intro kv h; simp at h
  | cons a t ih =>
    intro kv h
    rcases List.mem_cons.mp h with rfl | ht
    · unfold alookup
      rw [List.find?_cons_of_pos _ (by simp)]
      rfl
    · have hnd' := hnd
      rw [List.map_cons] at hnd'
      have hcons := List.nodup_cons.mp hnd'
      have hne : (a.1 == kv.1) = false := by
        have hm : kv.1 ∈ t.map Prod.fst := List.mem_map_of_mem Prod.fst ht
        simp only [beq_eq_false_iff_ne]
        intro he
        exact hcons.1 (he ▸ hm)
      unfold alookup
      simp only [List.find?_cons, hne]
      exact ih hcons.2 kv ht


theorem buildChecks_mem (watched : List (String × WatchedTask)) (stall now : Int)
    (id : String) (wt : WatchedTask) (hmem : (id, wt) ∈ watched)
    (hcond : now - wt.startedAt > wt.timeout ∨ now - wt.lastHeartbeat > stall) :
    ({ id := id
       timeout := decide (now - wt.startedAt > wt.timeout)
       stalled := decide (now - wt.lastHeartbeat > stall) } : MonCheck) ∈
      buildChecks watched stall now := by
  unfold buildChecks
  apply List.mem_filterMap.mpr
  refine ⟨(id, wt), hmem, ?_⟩
  dsimp only
  have hcb : (decide (now - wt.startedAt > wt.timeout) ||
      decide (now - wt.lastHeartbeat > stall)) = true := by
    rcases hcond with h | h
    · simp [h]
    · simp [h]
  rw [if_pos hcb]

theorem buildChecks_src (watched : List (String × WatchedTask)) (stall now : Int)
    (c : MonCheck) (hc : c ∈ buildChecks watched stall now) :
    ∃ kv ∈ watched, c =
      { id := kv.1
        timeout := decide (now - kv.2.startedAt > kv.2.timeout)
        stalled := decide (now - kv.2.lastHeartbeat > stall) } := by
  unfold buildChecks at hc
  obtain ⟨kv, hkv, heq⟩ := List.mem_filterMap.mp hc
  dsimp only at heq
  refine ⟨kv, hkv, ?_⟩
  split at heq
  · exact (Option.some.inj heq).symm
  · simp at heq

theorem alookup_mem {β : Type} (l : List (String × β)) (k : String) (v : β)
    (h : alookup l k = some v) : (k, v) ∈ l := by
  unfold alookup at h
  cases hf : l.find? (fun kv => kv.1 == k) with
  | none => rw [hf] at h; simp at h
  | some kv =>
    rw [hf] at h
    obtain ⟨k1, v1⟩ := kv
    have hk : k1 = k := by simpa using List.find?_some hf
    have hv : v1 = v := by simpa using h
    have hm := List.mem_of_find?_eq_some hf
    rw [← hk, ← hv]
    exact hm

/-- Claim C6: on a monitor tick, a watched entry whose age exceeds its
timeout gets `OnTaskTimeout` and is removed from the watched set (even if it
is also stalled); otherwise an entry whose last heartbeat is older than
`StallThreshold` gets `OnTaskStalled` and remains watched, unchanged; and
`Watch` stores the task's own timeout, falling back to `DefaultTimeout`
exactly when the task's timeout is zero. -/
theorem claim_C6 (s : SchedState) (now : Int) (id : String) (wt : WatchedTask)
    (hmem : alookup s.watched id = some wt)
    (hnd : (s.watched.map Prod.fst).Nodup) :
    (now - wt.startedAt > wt.timeout →
      alookup (checkTasksOp s now).watched id = none ∧
      HandlerCall.timeout id ∈ (checkTasksOp s now).calls) ∧
    (¬ now - wt.startedAt > wt.timeout →
      now - wt.lastHeartbeat > s.config.monitorConfig.stallThreshold →
      alookup (checkTasksOp s now).watched id = some wt ∧
      HandlerCall.stalled id ∈ (checkTasksOp s now).calls) ∧
    (∀ task : Task,
      alookup (monitorWatch s now task).watched task.id = some
        { task := task, startedAt := now, lastHeartbeat := now
          timeout := if task.timeout = 0 then s.config.monitorConfig.defaultTimeout
                     else task.timeout }) := by
  have hmem' : (id, wt) ∈ s.watched := alookup_mem _ _ _ hmem
  refine ⟨?_, ?_, ?_⟩
  · intro hto
    have hcmem := buildChecks_mem s.watched s.config.monitorConfig.stallThreshold now id wt
      hmem' (Or.inl hto)
    unfold checkTasksOp
    constructor
    · exact fold_watch_erased now _ _ id ⟨_, hcmem, rfl, decide_eq_true hto⟩
    · exact (fold_calls_add now _ _ _ hcmem).1 (decide_eq_true hto)
  · intro hnto hst
    have hcmem := buildChecks_mem s.watched s.config.monitorConfig.stallThreshold now id wt
      hmem' (Or.inr hst)
    unfold checkTasksOp
    constructor
    · rw [fold_watch_keep now _ _ id ?_]
      · exact hmem
      · intro c hc
        obtain ⟨kv, hkv, hceq⟩ := buildChecks_src _ _ _ c hc
        by_cases hcid : c.id = id
        · right
          have hkv1 : kv.1 = id := by rw [← hcid, hceq]
          have hl := alookup_of_mem_nodup s.watched hnd kv hkv
          rw [hkv1] at hl
          have hw : kv.2 = wt := Option.some.inj (hl.symm.trans hmem)
          rw [hceq]
          dsimp only
          rw [hw]
          exact decide_eq_false hnto
        · left
          exact hcid
    · exact (fold_calls_add now _ _ _ hcmem).2 (decide_eq_false hnto) (decide_eq_true hst)
  · intro task
    unfold monitorWatch
    dsimp only
    exact alookup_aupsert _ _ _

/-- Witness for C6: 100 s after dispatch, `t1` is stalled but not timed out;
the tick leaves it watched and fires the stall handler, via `claim_C6`. -/
theorem claim_C6_witness :
    alookup (checkTasksOp sAfterSched 100000000000).watched "t1" = some wtT1 ∧
    HandlerCall.stalled "t1" ∈ (checkTasksOp sAfterSched 100000000000).calls := by
  exact (claim_C6 sAfterSched 100000000000 "t1" wtT1 (by decide) (by decide)).2.1
    (by decide) (by decide)


/-- Counterexample to C4 as stated: in the reachable state `sStall` (one
successful dispatch followed by one monitor tick that fired the stall
handler), the non-terminal task `t1` is simultaneously in the pending queue
and in the monitor's watched set — the claimed XOR fails, because
`OnTaskStalled` re-enqueues without unwatching. -/
theorem claim_C4_counterexample :
    (getTaskS sStall "t1").map Task.status = some TaskStatus.assigned ∧
    ¬ terminalStatus TaskStatus.assigned ∧
    "t1" ∈ queueTaskIDs sStall.queue ∧
    (alookup sStall.watched "t1").isSome = true ∧
    HandlerCall.stalled "t1" ∈ sStall.calls := by decide


theorem lessItem_iff (x y : HeapItem) :
    lessItem x y ↔ (y.priority < x.priority ∨ (x.priority = y.priority ∧ x.seq < y.seq)) := by
  unfold lessItem
  split <;> rename_i h
  · constructor
    · intro hs
      exact Or.inr ⟨h, hs⟩
    · intro hor
      rcases hor with hp | ⟨_, hs⟩
      · omega
      · exact hs
  · constructor
    · intro hp
      exact Or.inl hp
    · intro hor
      rcases hor with hp | ⟨hpe, _⟩
      · exact hp
      · exact absurd hpe h

theorem lessItem_irrefl (x : HeapItem) : ¬ lessItem x x := by
  rw [lessItem_iff]
  omega

theorem lessItem_asymm {x y : HeapItem} (h : lessItem x y) : ¬ lessItem y x := by
  rw [lessItem_iff] at h ⊢
  omega

theorem lessItem_trans {x y z : HeapItem} (h1 : lessItem x y) (h2 : lessItem y z) :
    lessItem x z := by
  rw [lessItem_iff] at h1 h2 ⊢
  omega

theorem nlessItem_trans {x y z : HeapItem} (h1 : ¬ lessItem x y) (h2 : ¬ lessItem y z) :
    ¬ lessItem x z := by
  rw [lessItem_iff] at h1 h2 ⊢
  omega

theorem nlessItem_of_nless_of_less {x y z : HeapItem}
    (h1 : ¬ lessItem x z) (h2 : lessItem y z) : ¬ lessItem x y := by
  rw [lessItem_iff] at h1 h2 ⊢
  omega

theorem lessItem_total_of_seq_ne {x y : HeapItem} (h : x.seq ≠ y.seq) :
    lessItem x y ∨ lessItem y x := by
  rw [lessItem_iff, lessItem_iff]
  omega

theorem swapArr_eq_comp (a : ℕ → HeapItem) (i j : ℕ) :
    swapArr a i j = fun k => a (Equiv.swap i j k) := by
  funext k
  unfold swapArr
  rw [Equiv.swap_apply_def]
  by_cases h1 : k = i
  · simp [h1]
  · by_cases h2 : k = j
    · by_cases h3 : j = i
      · simp [h1, h2, h3]
      · simp [h1, h2, h3]
    · simp [h1, h2]

theorem msOf_succ (a : ℕ → HeapItem) (n : ℕ) :
    msOf a (n + 1) = msOf a n + {a n} := by
  unfold msOf
  rw [List.range_succ, List.map_append]
  rfl

theorem msOf_congr (a b : ℕ → HeapItem) (n : ℕ) (h : ∀ k, k < n → a k = b k) :
    msOf a n = msOf b n := by
  unfold msOf
  congr 1
  apply List.map_congr_left
  intro k hk
  exact h k (List.mem_range.mp hk)

theorem msOf_swap (a : ℕ → HeapItem) (i j n : ℕ) (hi : i < n) (hj : j < n) :
    msOf (swapArr a i j) n = msOf a n := by
  rw [swapArr_eq_comp]
  unfold msOf
  have hrange : ((List.range n).map (Equiv.swap i j) : Multiset ℕ) = (List.range n : Multiset ℕ) := by
    have hnd : ((List.range n).map (Equiv.swap i j)).Nodup :=
      (List.nodup_range n).map (Equiv.injective _)
    apply Multiset.eq_of_le_of_card_le
    · rw [Multiset.le_iff_subset (by exact hnd)]
      intro x hx
      have hx' := Multiset.mem_coe.mp hx
      obtain ⟨k, hk, hkx⟩ := List.mem_map.mp hx'
      have hkn := List.mem_range.mp hk
      have : x < n := by
        rw [← hkx, Equiv.swap_apply_def]
        split
        · exact hj
        · split
          · exact hi
          · exact hkn
      simpa using List.mem_range.mpr this
    · simp
  calc ((List.range n).map (fun k => a (Equiv.swap i j k)) : Multiset HeapItem)
      = Multiset.map a (((List.range n).map (Equiv.swap i j) : List ℕ) : Multiset ℕ) := by
        simp [Multiset.map_map]
        rfl
    _ = Multiset.map a (List.range n : Multiset ℕ) := by rw [hrange]
    _ = _ := by rfl

theorem mem_msOf {a : ℕ → HeapItem} {n : ℕ} {x : HeapItem} :
    x ∈ msOf a n ↔ ∃ k, k < n ∧ a k = x := by
  unfold msOf
  constructor
  · intro h
    obtain ⟨k, hk, hkx⟩ := List.mem_map.mp (Multiset.mem_coe.mp h)
    exact ⟨k, List.mem_range.mp hk, hkx⟩
  · rintro ⟨k, hk, hkx⟩
    exact Multiset.mem_coe.mpr (List.mem_map.mpr ⟨k, List.mem_range.mpr hk, hkx⟩)


theorem upGoFuel_congr : ∀ (f1 : ℕ), ∀ (f2 : ℕ) (a : ℕ → HeapItem) (j : ℕ),
    j < f1 → j < f2 → upGoFuel f1 a j = upGoFuel f2 a j := by
  intro f1
  induction f1 with
  | zero => intro f2 a j h1 _; omega
  | succ f1 ih =>
    intro f2 a j h1 h2
    cases f2 with
    | zero => omega
    | succ f2 =>
      simp only [upGoFuel]
      by_cases hb : (j - 1) / 2 = j
      · rw [if_pos hb, if_pos hb]
      · rw [if_neg hb, if_neg hb]
        by_cases hl : lessItem (a j) (a ((j - 1) / 2))
        · rw [if_pos hl, if_pos hl]
          exact ih f2 _ _ (by omega) (by omega)
        · rw [if_neg hl, if_neg hl]

theorem upGo_eq (a : ℕ → HeapItem) (j : ℕ) :
    upGo a j =
      if (j - 1) / 2 = j then a
      else if lessItem (a j) (a ((j - 1) / 2)) then
        upGo (swapArr a ((j - 1) / 2) j) ((j - 1) / 2)
      else a := by
  unfold upGo
  conv_lhs => rw [upGoFuel]
  by_cases hb : (j - 1) / 2 = j
  · rw [if_pos hb, if_pos hb]
  · rw [if_neg hb, if_neg hb]
    by_cases hl : lessItem (a j) (a ((j - 1) / 2))
    · rw [if_pos hl, if_pos hl]
      exact upGoFuel_congr j _ _ _ (by omega) (by omega)
    · rw [if_neg hl, if_neg hl]

theorem downAuxFuel_congr : ∀ (f1 : ℕ), ∀ (f2 : ℕ) (a : ℕ → HeapItem) (i n : ℕ),
    n - i ≤ f1 → n - i ≤ f2 → downAuxFuel f1 a i n = downAuxFuel f2 a i n := by
  intro f1
  induction f1 with
  | zero =>
    intro f2 a i n h1 _
    cases f2 with
    | zero => rfl
    | succ f2 =>
      simp only [downAuxFuel]
      rw [if_pos (by omega)]
  | succ f1 ih =>
    intro f2 a i n h1 h2
    cases f2 with
    | zero =>
      simp only [downAuxFuel]
      rw [if_pos (by omega)]
    | succ f2 =>
      simp only [downAuxFuel]
      by_cases hb : n ≤ 2 * i + 1
      · rw [if_pos hb, if_pos hb]
      · rw [if_neg hb, if_neg hb]
        by_cases hl : lessItem (a (if 2 * i + 1 + 1 < n ∧ lessItem (a (2 * i + 1 + 1)) (a (2 * i + 1)) then 2 * i + 1 + 1 else 2 * i + 1)) (a i)
        · rw [if_pos hl, if_pos hl]
          apply ih
          · split <;> omega
          · split <;> omega
        · rw [if_neg hl, if_neg hl]

theorem downAux_eq (a : ℕ → HeapItem) (i n : ℕ) :
    downAux a i n =
      if n ≤ 2 * i + 1 then (a, i)
      else
        if lessItem (a (if 2 * i + 1 + 1 < n ∧ lessItem (a (2 * i + 1 + 1)) (a (2 * i + 1)) then 2 * i + 1 + 1 else 2 * i + 1)) (a i) then
          downAux
            (swapArr a i (if 2 * i + 1 + 1 < n ∧ lessItem (a (2 * i + 1 + 1)) (a (2 * i + 1)) then 2 * i + 1 + 1 else 2 * i + 1))
            (if 2 * i + 1 + 1 < n ∧ lessItem (a (2 * i + 1 + 1)) (a (2 * i + 1)) then 2 * i + 1 + 1 else 2 * i + 1)
            n
        else (a, i) := by
  by_cases hb : n ≤ 2 * i + 1
  · rw [if_pos hb]
    conv_lhs => unfold downAux
    cases n with
    | zero => rfl
    | succ m =>
      simp only [downAuxFuel]
      rw [if_pos hb]
  · rw [if_neg hb]
    conv_lhs => unfold downAux
    cases n with
    | zero => omega
    | succ m =>
      simp only [downAuxFuel]
      rw [if_neg hb]
      by_cases hl : lessItem (a (if 2 * i + 1 + 1 < m + 1 ∧ lessItem (a (2 * i + 1 + 1)) (a (2 * i + 1)) then 2 * i + 1 + 1 else 2 * i + 1)) (a i)
      · rw [if_pos hl, if_pos hl]
        conv_rhs => unfold downAux
        apply downAuxFuel_congr
        · split <;> omega
        · split <;> omega
      · rw [if_neg hl, if_neg hl]


theorem upGo_frozen : ∀ (j : ℕ), ∀ (a : ℕ → HeapItem) (k : ℕ), j < k → upGo a j k = a k := by
  intro j
  induction j using Nat.strong_induction_on with
  | _ j ih =>
    intro a k hk
    rw [upGo_eq]
    split
    · rfl
    · rename_i hb
      split
      · rw [ih ((j - 1) / 2) (by omega) _ k (by omega)]
        unfold swapArr
        rw [if_neg (by omega), if_neg (by omega)]
      · rfl

theorem upGo_ms : ∀ (j : ℕ), ∀ (a : ℕ → HeapItem) (n : ℕ), j < n →
    msOf (upGo a j) n = msOf a n := by
  intro j
  induction j using Nat.strong_induction_on with
  | _ j ih =>
    intro a n hn
    rw [upGo_eq]
    split
    · rfl
    · rename_i hb
      split
      · rw [ih ((j - 1) / 2) (by omega) _ n (by omega)]
        exact msOf_swap a _ j n (by omega) hn
      · rfl

theorem downAux_frozen : ∀ (d : ℕ), ∀ (i n : ℕ) (a : ℕ → HeapItem) (k : ℕ),
    n - i ≤ d → n ≤ k → (downAux a i n).1 k = a k := by
  intro d
  induction d with
  | zero =>
    intro i n a k hd hk
    rw [downAux_eq, if_pos (by omega)]
  | succ d ih =>
    intro i n a k hd hk
    rw [downAux_eq]
    split
    · rfl
    · rename_i hb
      split
      · rename_i hl
        obtain ⟨h2, _⟩ := hl
        split
        · rw [ih (2 * i + 1 + 1) n _ k (by omega) hk]
          unfold swapArr
          rw [if_neg (by omega), if_neg (by omega)]
        · rfl
      · split
        · rw [ih (2 * i + 1) n _ k (by omega) hk]
          unfold swapArr
          rw [if_neg (by omega), if_neg (by omega)]
        · rfl

theorem downAux_ms : ∀ (d : ℕ), ∀ (i n : ℕ) (a : ℕ → HeapItem),
    n - i ≤ d → msOf ((downAux a i n).1) n = msOf a n := by
  intro d
  induction d with
  | zero =>
    intro i n a hd
    rw [downAux_eq, if_pos (by omega)]
  | succ d ih =>
    intro i n a hd
    rw [downAux_eq]
    split
    · rfl
    · rename_i hb
      split
      · rename_i hl
        obtain ⟨h2, _⟩ := hl
        split
        · rw [ih (2 * i + 1 + 1) n _ (by omega)]
          exact msOf_swap a i _ n (by omega) (by omega)
        · rfl
      · split
        · rw [ih (2 * i + 1) n _ (by omega)]
          exact msOf_swap a i _ n (by omega) (by omega)
        · rfl


theorem swapArr_fst (a : ℕ → HeapItem) (i j : ℕ) : swapArr a i j i = a j := by
  unfold swapArr
  rw [if_pos rfl]

theorem swapArr_snd (a : ℕ → HeapItem) (i j : ℕ) : swapArr a i j j = a i := by
  unfold swapArr
  by_cases h : j = i
  · rw [if_pos h, h]
  · rw [if_neg h, if_pos rfl]

theorem swapArr_out (a : ℕ → HeapItem) (i j k : ℕ) (h1 : k ≠ i) (h2 : k ≠ j) :
    swapArr a i j k = a k := by
  unfold swapArr
  rw [if_neg h1, if_neg h2]

theorem setArr_at (a : ℕ → HeapItem) (i : ℕ) (x : HeapItem) : setArr a i x i = x := by
  unfold setArr
  rw [if_pos rfl]

theorem setArr_out (a : ℕ → HeapItem) (i : ℕ) (x : HeapItem) (k : ℕ) (h : k ≠ i) :
    setArr a i x k = a k := by
  unfold setArr
  rw [if_neg h]

/-- One iteration of `heap.up` preserves the sift-up invariant: after swapping
the sifted element into its parent slot, the invariant holds at the parent. -/
theorem upAlmost_swap (a : ℕ → HeapItem) (n j : ℕ) (hj : 0 < j) (hjn : j < n)
    (h : UpAlmost a n j) (hl : lessItem (a j) (a ((j - 1) / 2))) :
    UpAlmost (swapArr a ((j - 1) / 2) j) n ((j - 1) / 2) := by
  have hpj : (j - 1) / 2 < j := by omega
  constructor
  · intro c hc0 hcn hcp
    by_cases hcj : c = j
    · subst hcj
      rw [swapArr_snd, swapArr_fst]
      exact lessItem_asymm hl
    · by_cases hcpar : (c - 1) / 2 = (j - 1) / 2
      · rw [swapArr_out a _ j c hcp hcj, hcpar, swapArr_fst]
        have h1 := h.1 c hc0 hcn hcj
        rw [hcpar] at h1
        exact nlessItem_of_nless_of_less h1 hl
      · by_cases hcj2 : (c - 1) / 2 = j
        · rw [swapArr_out a _ j c hcp hcj, hcj2, swapArr_snd]
          exact h.2 hj c hcn hcj2
        · rw [swapArr_out a _ j c hcp hcj, swapArr_out a _ j _ hcpar hcj2]
          exact h.1 c hc0 hcn hcj
  · intro hp0 c hcn hcpar
    have hgp1 : ((j - 1) / 2 - 1) / 2 ≠ (j - 1) / 2 := by omega
    have hgp2 : ((j - 1) / 2 - 1) / 2 ≠ j := by omega
    by_cases hcj : c = j
    · subst hcj
      rw [swapArr_snd, swapArr_out a _ c _ hgp1 hgp2]
      exact h.1 ((c - 1) / 2) hp0 (by omega) (by omega)
    · have hcp : c ≠ (j - 1) / 2 := by omega
      rw [swapArr_out a _ j c hcp hcj, swapArr_out a _ j _ hgp1 hgp2]
      have hc0 : 0 < c := by omega
      have h1 := h.1 c hc0 hcn hcj
      rw [hcpar] at h1
      exact nlessItem_trans h1 (h.1 ((j - 1) / 2) hp0 (by omega) (by omega))

/-- `heap.up` restores the heap property from the sift-up invariant. -/
theorem up_restores : ∀ (j : ℕ), ∀ (a : ℕ → HeapItem) (n : ℕ), j < n →
    UpAlmost a n j → HeapInv (upGo a j) n := by
  intro j
  induction j using Nat.strong_induction_on with
  | _ j ih =>
    intro a n hjn h
    rw [upGo_eq]
    split
    · rename_i h0
      intro c hc0 hcn
      exact h.1 c hc0 hcn (by omega)
    · rename_i h0
      have hj : 0 < j := by omega
      split
      · rename_i hl
        exact ih ((j - 1) / 2) (by omega) _ n (by omega) (upAlmost_swap a n j hj hjn h hl)
      · rename_i hnl
        intro c hc0 hcn
        by_cases hcj : c = j
        · subst hcj
          exact hnl
        · exact h.1 c hc0 hcn hcj


/-- One iteration of `heap.down` preserves the sift-down invariant: after
swapping the sifted element into its smaller child `J`, the invariant holds
at `J`. -/
theorem downAlmost_swap (a : ℕ → HeapItem) (m i J : ℕ)
    (hiJ : J = 2 * i + 1 ∨ J = 2 * i + 1 + 1) (hJm : J < m)
    (hmin : ∀ c, 0 < c → c < m → (c - 1) / 2 = i → ¬ lessItem (a c) (a J))
    (h : DownAlmost a m i) (hl : lessItem (a J) (a i)) :
    DownAlmost (swapArr a i J) m J := by
  have hpar : (J - 1) / 2 = i := by omega
  have hiJlt : i < J := by omega
  constructor
  · intro c hc0 hcm hcJ
    by_cases hcJeq : c = J
    · subst hcJeq
      rw [swapArr_snd, hpar, swapArr_fst]
      exact lessItem_asymm hl
    · by_cases hci : c = i
      · subst hci
        rw [swapArr_fst, swapArr_out a _ _ _ (by omega) (by omega)]
        exact h.2 hc0 J hJm hpar
      · by_cases hcpar : (c - 1) / 2 = i
        · rw [swapArr_out a _ _ c hci hcJeq, hcpar, swapArr_fst]
          exact hmin c hc0 hcm hcpar
        · rw [swapArr_out a _ _ c hci hcJeq, swapArr_out a _ _ _ hcpar hcJ]
          exact h.1 c hc0 hcm hcpar
  · intro hJ0 c hcm hcpar
    have hcJ : c ≠ J := by omega
    have hci : c ≠ i := by omega
    rw [swapArr_out a _ _ c hci hcJ, hpar, swapArr_fst, ← hcpar]
    exact h.1 c (by omega) hcm (by omega)

/-- `heap.down` restores the heap property from the sift-down invariant. -/
theorem down_restores : ∀ (d : ℕ), ∀ (i m : ℕ) (a : ℕ → HeapItem), m - i ≤ d →
    DownAlmost a m i → HeapInv ((downAux a i m).1) m := by
  intro d
  induction d with
  | zero =>
    intro i m a hd h
    rw [downAux_eq, if_pos (by omega)]
    intro c hc0 hcm
    by_cases hcpar : (c - 1) / 2 = i
    · exact absurd hcpar (by omega)
    · exact h.1 c hc0 hcm hcpar
  | succ d ih =>
    intro i m a hd h
    rw [downAux_eq]
    split
    · rename_i hstop
      intro c hc0 hcm
      by_cases hcpar : (c - 1) / 2 = i
      · exact absurd hcpar (by omega)
      · exact h.1 c hc0 hcm hcpar
    · rename_i hb
      split
      · rename_i hg
        obtain ⟨hg1, hg2⟩ := hg
        split
        · rename_i hl
          refine ih (2 * i + 1 + 1) m _ (by omega)
            (downAlmost_swap a m i (2 * i + 1 + 1) (Or.inr rfl) hg1 ?_ h hl)
          intro c hc0 hcm hcpar
          have hc : c = 2 * i + 1 ∨ c = 2 * i + 1 + 1 := by omega
          rcases hc with hc | hc
          · subst hc
            exact lessItem_asymm hg2
          · subst hc
            exact lessItem_irrefl _
        · rename_i hnl
          intro c hc0 hcm
          by_cases hcpar : (c - 1) / 2 = i
          · have hc : c = 2 * i + 1 ∨ c = 2 * i + 1 + 1 := by omega
            rcases hc with hc | hc
            · subst hc
              rw [(by omega : (2 * i + 1 - 1) / 2 = i)]
              intro hcon
              exact hnl (lessItem_trans hg2 hcon)
            · subst hc
              rw [(by omega : (2 * i + 1 + 1 - 1) / 2 = i)]
              exact hnl
          · exact h.1 c hc0 hcm hcpar
      · rename_i hng
        have hJm : 2 * i + 1 < m := by omega
        split
        · rename_i hl
          refine ih (2 * i + 1) m _ (by omega)
            (downAlmost_swap a m i (2 * i + 1) (Or.inl rfl) hJm ?_ h hl)
          intro c hc0 hcm hcpar
          have hc : c = 2 * i + 1 ∨ c = 2 * i + 1 + 1 := by omega
          rcases hc with hc | hc
          · subst hc
            exact lessItem_irrefl _
          · subst hc
            intro hcon
            exact hng ⟨by omega, hcon⟩
        · rename_i hnl
          intro c hc0 hcm
          by_cases hcpar : (c - 1) / 2 = i
          · have hc : c = 2 * i + 1 ∨ c = 2 * i + 1 + 1 := by omega
            rcases hc with hc | hc
            · subst hc
              rw [(by omega : (2 * i + 1 - 1) / 2 = i)]
              exact hnl
            · subst hc
              rw [(by omega : (2 * i + 1 + 1 - 1) / 2 = i)]
              have h22 : ¬ lessItem (a (2 * i + 1 + 1)) (a (2 * i + 1)) :=
                fun hx => hng ⟨by omega, hx⟩
              exact nlessItem_trans h22 hnl
          · exact h.1 c hc0 hcm hcpar


/-- `heap.Push` preserves the heap property. -/
theorem pushGo_inv (a : ℕ → HeapItem) (n : ℕ) (x : HeapItem) (h : HeapInv a n) :
    HeapInv (pushGo a n x) (n + 1) := by
  unfold pushGo
  apply up_restores n _ (n + 1) (by omega)
  constructor
  · intro c hc0 hcn hcj
    have hc : c < n := by omega
    rw [setArr_out a n x c (by omega), setArr_out a n x _ (by omega)]
    exact h c hc0 hc
  · intro hn0 c hcn hcpar
    exact absurd hcpar (by omega)

/-- `heap.Push` adds exactly the new item to the heap contents. -/
theorem pushGo_ms (a : ℕ → HeapItem) (n : ℕ) (x : HeapItem) :
    msOf (pushGo a n x) (n + 1) = msOf a n + {x} := by
  unfold pushGo
  rw [upGo_ms n _ (n + 1) (by omega), msOf_succ, setArr_at]
  congr 1
  apply msOf_congr
  intro k hk
  exact setArr_out a n x k (by omega)

/-- `heap.Pop` returns the current root. -/
theorem popGo_fst (a : ℕ → HeapItem) (n : ℕ) (hn : 0 < n) :
    (popGo a n).1 = a 0 := by
  unfold popGo
  dsimp only
  rw [downAux_frozen (n - 1) 0 (n - 1) _ (n - 1) (by omega) (by omega)]
  exact swapArr_snd a 0 (n - 1)

/-- `heap.Pop` removes exactly one copy of the root from the heap contents. -/
theorem popGo_ms (a : ℕ → HeapItem) (n : ℕ) (hn : 0 < n) :
    msOf (popGo a n).2 (n - 1) + {a 0} = msOf a n := by
  unfold popGo
  dsimp only
  rw [downAux_ms (n - 1) 0 (n - 1) _ (by omega)]
  have h1 : swapArr a 0 (n - 1) (n - 1) = a 0 := swapArr_snd a 0 (n - 1)
  calc msOf (swapArr a 0 (n - 1)) (n - 1) + {a 0}
      = msOf (swapArr a 0 (n - 1)) (n - 1) + {swapArr a 0 (n - 1) (n - 1)} := by rw [h1]
    _ = msOf (swapArr a 0 (n - 1)) (n - 1 + 1) := (msOf_succ _ _).symm
    _ = msOf (swapArr a 0 (n - 1)) n := by rw [(by omega : n - 1 + 1 = n)]
    _ = msOf a n := msOf_swap a 0 (n - 1) n hn (by omega)

/-- `heap.Pop` preserves the heap property on the shrunk heap. -/
theorem popGo_inv (a : ℕ → HeapItem) (n : ℕ) (h : HeapInv a n) :
    HeapInv (popGo a n).2 (n - 1) := by
  unfold popGo
  dsimp only
  apply down_restores (n - 1) 0 (n - 1) _ (by omega)
  constructor
  · intro c hc0 hcm hcpar
    rw [swapArr_out a 0 (n - 1) c (by omega) (by omega),
      swapArr_out a 0 (n - 1) _ hcpar (by omega)]
    exact h c hc0 (by omega)
  · intro h0
    exact absurd h0 (by omega)

/-- In a heap, the root is a minimum: no element is `Less` than it. -/
theorem root_min (a : ℕ → HeapItem) (n : ℕ) (h : HeapInv a n) :
    ∀ k, k < n → ¬ lessItem (a k) (a 0) := by
  intro k
  induction k using Nat.strong_induction_on with
  | _ k ih =>
    intro hk
    by_cases hk0 : k = 0
    · subst hk0
      exact lessItem_irrefl _
    · exact nlessItem_trans (h k (by omega) hk) (ih ((k - 1) / 2) (by omega) (by omega))

/-- Draining pops exactly the heap contents. -/
theorem drain_ms : ∀ (n : ℕ) (a : ℕ → HeapItem),
    ((drainItems a n : List HeapItem) : Multiset HeapItem) = msOf a n := by
  intro n
  induction n with
  | zero => intro a; rfl
  | succ n ih =>
    intro a
    show ((popGo a (n + 1)).1 ::ₘ (drainItems (popGo a (n + 1)).2 n : Multiset HeapItem)) = _
    rw [ih, popGo_fst a (n + 1) (by omega), ← Multiset.singleton_add, add_comm]
    exact popGo_ms a (n + 1) (by omega)

/-- Draining a heap yields a list in which no later element is `Less` than an
earlier one (the dequeue order is non-increasing in the heap order). -/
theorem drain_sorted : ∀ (n : ℕ) (a : ℕ → HeapItem), HeapInv a n →
    (drainItems a n).Pairwise (fun x y => ¬ lessItem y x) := by
  intro n
  induction n with
  | zero => intro a _; exact List.Pairwise.nil
  | succ n ih =>
    intro a h
    show List.Pairwise _ ((popGo a (n + 1)).1 :: drainItems (popGo a (n + 1)).2 n)
    constructor
    · intro y hy
      have hy' : y ∈ msOf (popGo a (n + 1)).2 n := by
        rw [← drain_ms]
        exact Multiset.mem_coe.mpr hy
      have hy2 : y ∈ msOf a (n + 1) := by
        have hle : msOf (popGo a (n + 1)).2 n ≤ msOf a (n + 1) := by
          rw [← popGo_ms a (n + 1) (by omega)]
          exact Multiset.le_add_right _ _
        exact Multiset.mem_of_le hle hy'
      obtain ⟨k, hk, hky⟩ := mem_msOf.mp hy2
      rw [popGo_fst a (n + 1) (by omega), ← hky]
      exact root_min a (n + 1) h k hk
    · exact ih (popGo a (n + 1)).2 (popGo_inv a (n + 1) h)


theorem mkItems_length : ∀ (rs : List ScheduleRequest) (base : Int),
    (mkItems base rs).length = rs.length := by
  intro rs
  induction rs with
  | nil => intro base; rfl
  | cons r rs ih =>
    intro base
    show (mkItems (base + 1) rs).length + 1 = rs.length + 1
    rw [ih]

theorem mkItems_get : ∀ (rs : List ScheduleRequest) (base : Int) (k : ℕ)
    (h : k < rs.length) (h2 : k < (mkItems base rs).length),
    (mkItems base rs).get ⟨k, h2⟩ =
      { request := rs.get ⟨k, h⟩, priority := reqPriority (rs.get ⟨k, h⟩),
        seq := base + 1 + (k : Int) } := by
  intro rs
  induction rs with
  | nil =>
    intro base k h h2
    exact absurd h (by simp)
  | cons r rs ih =>
    intro base k h h2
    cases k with
    | zero =>
      show ({ request := r, priority := reqPriority r, seq := base + 1 } : HeapItem) = _
      have : base + 1 + ((0 : ℕ) : Int) = base + 1 := by omega
      rw [this]
      rfl
    | succ k =>
      have h3 : k < rs.length := by
        simp only [List.length_cons] at h
        omega
      have h4 : k < (mkItems (base + 1) rs).length := by
        rw [mkItems_length]
        exact h3
      show (mkItems (base + 1) rs).get ⟨k, h4⟩ = _
      rw [ih (base + 1) k h3 h4]
      have hg : (r :: rs).get ⟨k + 1, h⟩ = rs.get ⟨k, h3⟩ := rfl
      rw [hg]
      have : base + 1 + 1 + (k : Int) = base + 1 + ((k + 1 : ℕ) : Int) := by push_cast; ring
      rw [this]

theorem mkItems_seq_bound : ∀ (rs : List ScheduleRequest) (base : Int) (y : HeapItem),
    y ∈ mkItems base rs → base < y.seq ∧ y.seq ≤ base + (rs.length : Int) := by
  intro rs
  induction rs with
  | nil =>
    intro base y hy
    exact absurd hy (by simp [mkItems])
  | cons r rs ih =>
    intro base y hy
    rcases List.mem_cons.mp hy with hy | hy
    · subst hy
      simp only [List.length_cons]
      push_cast
      omega
    · have := ih (base + 1) y hy
      simp only [List.length_cons]
      push_cast
      push_cast at this
      omega

theorem mkItems_seq_nodup : ∀ (rs : List ScheduleRequest) (base : Int),
    ((mkItems base rs).map (fun it => it.seq)).Nodup := by
  intro rs
  induction rs with
  | nil => intro base; exact List.nodup_nil
  | cons r rs ih =>
    intro base
    show ((base + 1) :: (mkItems (base + 1) rs).map (fun it => it.seq)).Nodup
    rw [List.nodup_cons]
    constructor
    · intro hmem
      obtain ⟨y, hy, hseq⟩ := List.mem_map.mp hmem
      have := (mkItems_seq_bound rs (base + 1) y hy).1
      omega
    · exact ih (base + 1)

/-- `NewPriorityQueue` starts with a (vacuously) valid heap. -/
theorem emptyPQ_inv : HeapInv emptyPQ.arr emptyPQ.size := by
  intro c hc0 hcn
  have hz : emptyPQ.size = 0 := rfl
  omega

/-- Enqueuing a list of requests: the size and sequence counter advance by the
list length, the heap property is preserved, and the heap contents gain
exactly the items stamped with consecutive sequence numbers. -/
theorem enqueueAll_props : ∀ (rs : List ScheduleRequest) (q : PQ),
    HeapInv q.arr q.size →
    (enqueueAll q rs).size = q.size + rs.length ∧
    (enqueueAll q rs).seq = q.seq + (rs.length : Int) ∧
    HeapInv (enqueueAll q rs).arr (q.size + rs.length) ∧
    msOf (enqueueAll q rs).arr (q.size + rs.length) =
      msOf q.arr q.size + ((mkItems q.seq rs : List HeapItem) : Multiset HeapItem) := by
  intro rs
  induction rs with
  | nil =>
    intro q h
    refine ⟨rfl, ?_, h, ?_⟩
    · show q.seq = q.seq + ((0 : ℕ) : Int)
      omega
    · show msOf q.arr q.size = msOf q.arr q.size + (0 : Multiset HeapItem)
      exact (add_zero _).symm
  | cons r rs ih =>
    intro q h
    have hinv1 : HeapInv (pqEnqueue q r).arr (pqEnqueue q r).size :=
      pushGo_inv q.arr q.size _ h
    have hstep := ih (pqEnqueue q r) hinv1
    have hsz : (pqEnqueue q r).size = q.size + 1 := rfl
    have hsq : (pqEnqueue q r).seq = q.seq + 1 := rfl
    have hlen : (r :: rs).length = rs.length + 1 := rfl
    refine ⟨?_, ?_, ?_, ?_⟩
    · show (enqueueAll (pqEnqueue q r) rs).size = q.size + (r :: rs).length
      rw [hstep.1, hsz, hlen]
      omega
    · show (enqueueAll (pqEnqueue q r) rs).seq = q.seq + ((r :: rs).length : Int)
      rw [hstep.2.1, hsq, hlen]
      push_cast
      ring
    · show HeapInv (enqueueAll (pqEnqueue q r) rs).arr (q.size + (r :: rs).length)
      have := hstep.2.2.1
      rw [hsz] at this
      rw [hlen, (by omega : q.size + (rs.length + 1) = q.size + 1 + rs.length)]
      exact this
    · show msOf (enqueueAll (pqEnqueue q r) rs).arr (q.size + (r :: rs).length) = _
      have hms := hstep.2.2.2
      rw [hsz, hsq] at hms
      rw [hlen, (by omega : q.size + (rs.length + 1) = q.size + 1 + rs.length), hms]
      have hpush : msOf (pqEnqueue q r).arr (q.size + 1) =
          msOf q.arr q.size +
            {({ request := r, priority := reqPriority r, seq := q.seq + 1 } : HeapItem)} :=
        pushGo_ms q.arr q.size _
      rw [hpush]
      show _ = msOf q.arr q.size +
        (({ request := r, priority := reqPriority r, seq := q.seq + 1 } : HeapItem) ::ₘ
          ((mkItems (q.seq + 1) rs : List HeapItem) : Multiset HeapItem))
      rw [← Multiset.singleton_add]
      rw [add_assoc]


/-- C1: the priority queue dequeues in the promised total order — for any two
requests enqueued (without intervening dequeue) at positions `a` and `b`, the
`a`-th request is dequeued before the `b`-th one iff its priority is strictly
higher, or the priorities are equal and `a < b` (strict FIFO among equal
priorities); moreover the dequeued items carry the enqueued requests. -/
theorem claim_C1 (rs : List ScheduleRequest) (a b : ℕ)
    (ha : a < rs.length) (hb : b < rs.length) (hab : a ≠ b) :
    posOf rs a < (dequeueOrder rs).length ∧
    posOf rs b < (dequeueOrder rs).length ∧
    (∀ hfa : posOf rs a < (dequeueOrder rs).length,
      ((dequeueOrder rs).get ⟨posOf rs a, hfa⟩).request = rs.get ⟨a, ha⟩) ∧
    (∀ hfb : posOf rs b < (dequeueOrder rs).length,
      ((dequeueOrder rs).get ⟨posOf rs b, hfb⟩).request = rs.get ⟨b, hb⟩) ∧
    (posOf rs a < posOf rs b ↔
      (reqPriority (rs.get ⟨a, ha⟩) > reqPriority (rs.get ⟨b, hb⟩) ∨
        (reqPriority (rs.get ⟨a, ha⟩) = reqPriority (rs.get ⟨b, hb⟩) ∧ a < b))) := by
  obtain ⟨hq1, hq2, hq3, hq4⟩ := enqueueAll_props rs emptyPQ emptyPQ_inv
  have hsz0 : emptyPQ.size = 0 := rfl
  have hsq0 : emptyPQ.seq = 0 := rfl
  have hsz : (enqueueAll emptyPQ rs).size = rs.length := by
    rw [hq1, hsz0, Nat.zero_add]
  have hinv : HeapInv (enqueueAll emptyPQ rs).arr rs.length := by
    rw [hsz0, Nat.zero_add] at hq3
    exact hq3
  have hms : msOf (enqueueAll emptyPQ rs).arr rs.length =
      ((mkItems 0 rs : List HeapItem) : Multiset HeapItem) := by
    rw [hsz0, hsq0, Nat.zero_add] at hq4
    have h0 : msOf emptyPQ.arr 0 = 0 := rfl
    rw [hq4, h0, zero_add]
  have hdms : ((dequeueOrder rs : List HeapItem) : Multiset HeapItem) =
      ((mkItems 0 rs : List HeapItem) : Multiset HeapItem) := by
    show ((drainItems (enqueueAll emptyPQ rs).arr (enqueueAll emptyPQ rs).size :
      List HeapItem) : Multiset HeapItem) = _
    rw [hsz, drain_ms]
    exact hms
  have hperm : (dequeueOrder rs).Perm (mkItems 0 rs) := Multiset.coe_eq_coe.mp hdms
  have hsorted : (dequeueOrder rs).Pairwise (fun x y => ¬ lessItem y x) := by
    show List.Pairwise _
      (drainItems (enqueueAll emptyPQ rs).arr (enqueueAll emptyPQ rs).size)
    rw [hsz]
    exact drain_sorted rs.length _ hinv
  have hlenA : a < (mkItems 0 rs).length := by rw [mkItems_length]; exact ha
  have hlenB : b < (mkItems 0 rs).length := by rw [mkItems_length]; exact hb
  have hgetA : (mkItems 0 rs).get ⟨a, hlenA⟩ =
      { request := rs.get ⟨a, ha⟩, priority := reqPriority (rs.get ⟨a, ha⟩),
        seq := (a : Int) + 1 } := by
    rw [mkItems_get rs 0 a ha hlenA]
    congr 1
    omega
  have hgetB : (mkItems 0 rs).get ⟨b, hlenB⟩ =
      { request := rs.get ⟨b, hb⟩, priority := reqPriority (rs.get ⟨b, hb⟩),
        seq := (b : Int) + 1 } := by
    rw [mkItems_get rs 0 b hb hlenB]
    congr 1
    omega
  have hmemA :
      ({ request := rs.get ⟨a, ha⟩, priority := reqPriority (rs.get ⟨a, ha⟩),
         seq := (a : Int) + 1 } : HeapItem) ∈ mkItems 0 rs :=
    List.mem_iff_get.mpr ⟨⟨a, hlenA⟩, hgetA⟩
  have hmemB :
      ({ request := rs.get ⟨b, hb⟩, priority := reqPriority (rs.get ⟨b, hb⟩),
         seq := (b : Int) + 1 } : HeapItem) ∈ mkItems 0 rs :=
    List.mem_iff_get.mpr ⟨⟨b, hlenB⟩, hgetB⟩
  have hfA : posOf rs a < (dequeueOrder rs).length := by
    apply List.findIdx_lt_length_of_exists
    exact ⟨_, hperm.mem_iff.mpr hmemA, beq_self_eq_true ((a : Int) + 1)⟩
  have hfB : posOf rs b < (dequeueOrder rs).length := by
    apply List.findIdx_lt_length_of_exists
    exact ⟨_, hperm.mem_iff.mpr hmemB, beq_self_eq_true ((b : Int) + 1)⟩
  have hgA : (dequeueOrder rs).get ⟨posOf rs a, hfA⟩ =
      { request := rs.get ⟨a, ha⟩, priority := reqPriority (rs.get ⟨a, ha⟩),
        seq := (a : Int) + 1 } := by
    have hp : (((dequeueOrder rs).get ⟨posOf rs a, hfA⟩).seq == (a : Int) + 1) = true := by
      exact @List.findIdx_get _ (fun it => HeapItem.seq it == (a : Int) + 1) (dequeueOrder rs) hfA
    have hseq : ((dequeueOrder rs).get ⟨posOf rs a, hfA⟩).seq = (a : Int) + 1 :=
      eq_of_beq hp
    have hmem : (dequeueOrder rs).get ⟨posOf rs a, hfA⟩ ∈ mkItems 0 rs :=
      hperm.mem_iff.mp (List.mem_iff_get.mpr ⟨⟨posOf rs a, hfA⟩, rfl⟩)
    exact List.inj_on_of_nodup_map (mkItems_seq_nodup rs 0) hmem hmemA (by rw [hseq])
  have hgB : (dequeueOrder rs).get ⟨posOf rs b, hfB⟩ =
      { request := rs.get ⟨b, hb⟩, priority := reqPriority (rs.get ⟨b, hb⟩),
        seq := (b : Int) + 1 } := by
    have hp : (((dequeueOrder rs).get ⟨posOf rs b, hfB⟩).seq == (b : Int) + 1) = true := by
      exact @List.findIdx_get _ (fun it => HeapItem.seq it == (b : Int) + 1) (dequeueOrder rs) hfB
    have hseq : ((dequeueOrder rs).get ⟨posOf rs b, hfB⟩).seq = (b : Int) + 1 :=
      eq_of_beq hp
    have hmem : (dequeueOrder rs).get ⟨posOf rs b, hfB⟩ ∈ mkItems 0 rs :=
      hperm.mem_iff.mp (List.mem_iff_get.mpr ⟨⟨posOf rs b, hfB⟩, rfl⟩)
    exact List.inj_on_of_nodup_map (mkItems_seq_nodup rs 0) hmem hmemB (by rw [hseq])
  have hne : posOf rs a ≠ posOf rs b := by
    intro heq
    have hfin : (⟨posOf rs a, hfA⟩ : Fin (dequeueOrder rs).length) = ⟨posOf rs b, hfB⟩ :=
      Fin.ext heq
    have heq2 := hgA.symm.trans (congrArg _ hfin)
    rw [hgB] at heq2
    have := congrArg HeapItem.seq heq2
    simp only at this
    omega
  have hpw := List.pairwise_iff_get.mp hsorted
  have hlt_iff : lessItem
      { request := rs.get ⟨a, ha⟩, priority := reqPriority (rs.get ⟨a, ha⟩),
        seq := (a : Int) + 1 }
      { request := rs.get ⟨b, hb⟩, priority := reqPriority (rs.get ⟨b, hb⟩),
        seq := (b : Int) + 1 } ↔
      (reqPriority (rs.get ⟨a, ha⟩) > reqPriority (rs.get ⟨b, hb⟩) ∨
        (reqPriority (rs.get ⟨a, ha⟩) = reqPriority (rs.get ⟨b, hb⟩) ∧ a < b)) := by
    rw [lessItem_iff]
    dsimp only
    omega
  refine ⟨hfA, hfB, ?_, ?_, ?_⟩
  · intro hfa
    rw [hgA]
  · intro hfb
    rw [hgB]
  · constructor
    · intro hlt
      have h1 := hpw ⟨posOf rs a, hfA⟩ ⟨posOf rs b, hfB⟩ hlt
      rw [hgA, hgB] at h1
      have hseqne :
          ({ request := rs.get ⟨a, ha⟩, priority := reqPriority (rs.get ⟨a, ha⟩),
             seq := (a : Int) + 1 } : HeapItem).seq ≠
            ({ request := rs.get ⟨b, hb⟩, priority := reqPriority (rs.get ⟨b, hb⟩),
               seq := (b : Int) + 1 } : HeapItem).seq := by
        dsimp only
        omega
      rcases lessItem_total_of_seq_ne hseqne with h2 | h2
      · exact hlt_iff.mp h2
      · exact absurd h2 h1
    · intro hrhs
      have hltAB := hlt_iff.mpr hrhs
      rcases Nat.lt_trichotomy (posOf rs a) (posOf rs b) with h | h | h
      · exact h
      · exact absurd h hne
      · exfalso
        have h1 := hpw ⟨posOf rs b, hfB⟩ ⟨posOf rs a, hfA⟩ h
        rw [hgA, hgB] at h1
        exact h1 hltAB


theorem claim_C1_witness :
    0 < qReqs.length ∧ 2 < qReqs.length ∧ (0 : ℕ) ≠ 2 ∧
    (posOf qReqs 0 < (dequeueOrder qReqs).length ∧
     posOf qReqs 2 < (dequeueOrder qReqs).length ∧
     (∀ hfa : posOf qReqs 0 < (dequeueOrder qReqs).length,
       ((dequeueOrder qReqs).get ⟨posOf qReqs 0, hfa⟩).request = qReqs.get ⟨0, by decide⟩) ∧
     (∀ hfb : posOf qReqs 2 < (dequeueOrder qReqs).length,
       ((dequeueOrder qReqs).get ⟨posOf qReqs 2, hfb⟩).request = qReqs.get ⟨2, by decide⟩) ∧
     (posOf qReqs 0 < posOf qReqs 2 ↔
       (reqPriority (qReqs.get ⟨0, by decide⟩) > reqPriority (qReqs.get ⟨2, by decide⟩) ∨
         (reqPriority (qReqs.get ⟨0, by decide⟩) = reqPriority (qReqs.get ⟨2, by decide⟩) ∧
           0 < 2)))) :=
  ⟨by decide, by decide, by decide,
    claim_C1 qReqs 0 2 (by decide) (by decide) (by decide)⟩

/-- `Enqueue` makes the request's task ID visible in the queue scan. -/
theorem mem_queueTaskIDs_enqueue (q : PQ) (r : ScheduleRequest) :
    reqTaskID r ∈ queueTaskIDs (pqEnqueue q r) := by
  unfold pqEnqueue queueTaskIDs
  dsimp only
  have hmem : ({ request := r, priority := reqPriority r, seq := q.seq + 1 } : HeapItem) ∈
      msOf (pushGo q.arr q.size { request := r, priority := reqPriority r, seq := q.seq + 1 })
        (q.size + 1) := by
    rw [pushGo_ms]
    exact Multiset.mem_add.mpr (Or.inr (Multiset.mem_singleton_self _))
  obtain ⟨k, hk, hkeq⟩ := mem_msOf.mp hmem
  apply List.mem_map.mpr
  refine ⟨k, List.mem_range.mpr hk, ?_⟩
  rw [hkeq]

/-- C4 (amended): `OnTaskStalled` on a known record below the retry limit
re-enqueues the request but never unwatches it — afterwards the task is in
the queue while the watched set is exactly as before, so a previously
watched task is simultaneously queued and watched (the spec's queue-XOR-
watched invariant fails at this transition, as the spec's own design note
records). -/
theorem claim_C4 (s : SchedState) (now : Int) (id : String) (rec : TaskRecord)
    (hrec : alookup s.tasks id = some rec)
    (hretry : rec.retries < s.config.maxRetries)
    (hid : reqTaskID rec.request = id) :
    (onTaskStalledOp s now id).watched = s.watched ∧
    id ∈ queueTaskIDs (onTaskStalledOp s now id).queue := by
  refine ⟨watched_onTaskStalledOp s now id, ?_⟩
  unfold onTaskStalledOp
  rw [hrec]
  dsimp only
  rw [if_pos hretry]
  unfold emitEvent
  dsimp only
  rw [← hid]
  exact mem_queueTaskIDs_enqueue s.queue rec.request

theorem claim_C4_witness :
    alookup sAfterSched.tasks "t1" = some recT1 ∧
    recT1.retries < sAfterSched.config.maxRetries ∧
    reqTaskID recT1.request = "t1" ∧
    (alookup sAfterSched.watched "t1").isSome = true ∧
    (onTaskStalledOp sAfterSched 100000000000 "t1").watched = sAfterSched.watched ∧
    "t1" ∈ queueTaskIDs (onTaskStalledOp sAfterSched 100000000000 "t1").queue := by
  have h := claim_C4 sAfterSched 100000000000 "t1" recT1 rfl (by decide) (by decide)
  exact ⟨rfl, by decide, by decide, by decide, h.1, h.2⟩

end Ultronix
